import Mathlib

/-!
Verification of the PetCollar firmware positioning pipeline.

Shallow embedding of the C++ sources:
* `Utils.h` beacon-name parsing (`extractLocation`, `extractBeaconId`),
* `TriangulationManager.h` least-squares trilateration and position update,
* `micro_zone_manager.h` ray-casting containment and zone state machine,
* `ZoneManager.h` zone containment with activity/schedule gating,
* `manager_implementations.cpp` RSSI-to-distance conversion.

Arduino `String` values are modelled as `List Char`; `float` as `ℝ` where
square roots / powers occur and as `ℚ` where the code is pure field
arithmetic; `millis()` timestamps are passed as explicit `ℕ` parameters.
-/

namespace PetCollar

/-! ## Arduino String primitives (behaviour of the `String` methods used) -/

/-- Arduino `String::startsWith`: the first `p.length` characters equal `p`. -/
def startsWith (s p : List Char) : Bool :=
  decide (s.take p.length = p)

/-- Arduino `String::indexOf(ch, fromIndex)`: index of the first occurrence of
`c` at position `i` or later, `-1` if absent. -/
def indexOfFrom (s : List Char) (c : Char) (i : ℕ) : ℤ :=
  match (s.drop i).findIdx? (fun d => d = c) with
  | some k => ((i + k : ℕ) : ℤ)
  | none => -1

/-- Arduino `String::lastIndexOf(ch)`: index of the last occurrence of `c`,
`-1` if absent. -/
def lastIndexOfChar (s : List Char) (c : Char) : ℤ :=
  match s.reverse.findIdx? (fun d => d = c) with
  | some k => ((s.length - 1 - k : ℕ) : ℤ)
  | none => -1

/-- Arduino `String::substring(left, right)`: swaps if `left > right`, clamps
`right` to the length, empty if `left` is out of range; returns `[left, right)`. -/
def substringFromTo (s : List Char) (left right : ℕ) : List Char :=
  let l := if left > right then right else left
  let r := if left > right then left else right
  if l ≥ s.length then [] else (s.take (min r s.length)).drop l

/-- Arduino `String::substring(left)`: suffix from `left`. -/
def substringFrom (s : List Char) (left : ℕ) : List Char :=
  substringFromTo s left s.length

/-! ## Utils.h name parsing -/

/-- `extractLocation` from `Utils.h` (lines 80-95): location segment of a
`PetZone-...` beacon name, `"Unknown"` otherwise. -/
def extractLocation (beaconName : List Char) : List Char :=
  if startsWith beaconName "PetZone-".toList = false then "Unknown".toList
  else
    let firstDash := indexOfFrom beaconName '-' 8
    let secondDash := indexOfFrom beaconName '-' (firstDash + 1).toNat
    if secondDash > 0 then substringFromTo beaconName 8 secondDash.toNat
    else if firstDash > 0 then substringFromTo beaconName 8 firstDash.toNat
    else "Unknown".toList

/-- `extractBeaconId` from `Utils.h` (lines 102-108): segment after the last
dash, `"00"` when there is no interior dash. -/
def extractBeaconId (beaconName : List Char) : List Char :=
  let lastDash := lastIndexOfChar beaconName '-'
  if lastDash > 0 ∧ lastDash < (beaconName.length : ℤ) - 1 then
    substringFrom beaconName (lastDash + 1).toNat
  else "00".toList

/-! ## micro_zone_manager.h : zones, ray casting and the zone state machine

Coordinates are `float` in the source; the ray-casting test and the state
machine are pure field arithmetic and comparisons, embedded over `ℚ`. -/

/-- `ZoneConfig` from `micro_zone_manager.h` (lines 15-26). `alertType` is the
`AlertMode` enum value; it is never inspected by the verified logic. -/
structure ZoneConfig where
  triggerRadius : ℕ
  alertDelay : ℕ
  alertType : ℕ
  isActive : Bool
deriving DecidableEq

/-- `Zone` from `micro_zone_manager.h` (lines 34-55). The C array
`points[MAX_POINTS_PER_ZONE]` with its `pointCount` counter is modelled as the
list of the first `pointCount` entries, so `pointCount = points.length`. -/
structure Zone where
  zoneId : List Char
  name : List Char
  points : List (ℚ × ℚ)
  color : List Char
  config : ZoneConfig
  isComplete : Bool
  lastTriggered : ℕ
  currentlyOccupied : Bool
deriving DecidableEq

instance : Inhabited Zone :=
  ⟨⟨[], [], [], "#8B5CF6".toList, ⟨5, 3, 2, true⟩, false, 0, false⟩⟩

/-- `ZoneTransition` from `micro_zone_manager.h` (lines 58-70). -/
structure ZoneTransition where
  zoneId : List Char
  zoneName : List Char
  entered : Bool
  timestamp : ℕ
  positionX : ℚ
  positionY : ℚ
deriving DecidableEq

/-- `ZoneManager::rayIntersectsSegment` (lines 127-141): horizontal edges are
skipped, the point's y must lie in `[min y, max y)`, and the x-intersection
must be strictly right of the point. -/
def rayIntersectsSegment (px py x1 y1 x2 y2 : ℚ) : Bool :=
  if y1 = y2 then false
  else if py < min y1 y2 ∨ py ≥ max y1 y2 then false
  else decide (x1 + (py - y1) * (x2 - x1) / (y2 - y1) > px)

/-- `ZoneManager::isPointInPolygon` (lines 105-124): count crossing edges
`(points[i], points[(i+1) % n])`, odd count means inside. -/
def isPointInPolygon (x y : ℚ) (zone : Zone) : Bool :=
  if zone.points.length < 3 ∨ zone.isComplete = false then false
  else
    let n := zone.points.length
    let intersections := (List.range n).countP (fun i =>
      rayIntersectsSegment x y
        (zone.points.getD i (0, 0)).1 (zone.points.getD i (0, 0)).2
        (zone.points.getD ((i + 1) % n) (0, 0)).1
        (zone.points.getD ((i + 1) % n) (0, 0)).2)
    decide (intersections % 2 = 1)

/-- Entry half of `ZoneManager::processZoneTransitions` (lines 148-171): mark
zone `i` occupied (and stamp `lastTriggered`) for every set bit of the mask.
The recursion over the list mirrors the C loop index `i`. -/
def markEntered (zones : List Zone) (mask : ℕ) (t : ℕ) (i : ℕ) : List Zone :=
  match zones with
  | [] => []
  | z :: rest =>
    (if mask.testBit i then { z with currentlyOccupied := true, lastTriggered := t } else z)
      :: markEntered rest mask t (i + 1)

/-- Exit half of `ZoneManager::processZoneTransitions` (lines 174-196): clear
the occupied flag for every set bit of the mask. -/
def markExited (zones : List Zone) (mask : ℕ) (i : ℕ) : List Zone :=
  match zones with
  | [] => []
  | z :: rest =>
    (if mask.testBit i then { z with currentlyOccupied := false } else z)
      :: markExited rest mask (i + 1)

/-- The transition records appended by one loop of
`ZoneManager::processZoneTransitions`, in loop order. -/
def transitionEvents (zones : List Zone) (mask : ℕ) (entered : Bool) (t : ℕ)
    (x y : ℚ) (i : ℕ) : List ZoneTransition :=
  match zones with
  | [] => []
  | z :: rest =>
    (if mask.testBit i then [⟨z.zoneId, z.name, entered, t, x, y⟩] else [])
      ++ transitionEvents rest mask entered t x y (i + 1)

/-- `ZoneManagerState`: the private fields of class `ZoneManager`
(lines 95-102).  `activeZoneCount` is `zones.length`; the `uint8_t` bitmasks
are naturals (no zone index exceeds 7, so 8-bit truncation never fires). -/
structure ZMState where
  zones : List Zone
  currentZoneStates : ℕ
  previousZoneStates : ℕ
  recentTransitions : List ZoneTransition
  lastPositionUpdate : ℕ
  lastKnownX : ℚ
  lastKnownY : ℚ
  positionValid : Bool

/-- `ZoneManager::processZoneTransitions` (lines 144-202): process entry bits,
then exit bits, appending transition records and keeping only the last 50. -/
def processZoneTransitions (s : ZMState) (enteredZones exitedZones : ℕ) (t : ℕ) : ZMState :=
  let zones1 := markEntered s.zones enteredZones t 0
  let enterEvents := transitionEvents s.zones enteredZones true t s.lastKnownX s.lastKnownY 0
  let zones2 := markExited zones1 exitedZones 0
  let exitEvents := transitionEvents s.zones exitedZones false t s.lastKnownX s.lastKnownY 0
  let trans := s.recentTransitions ++ enterEvents ++ exitEvents
  let trans2 := if trans.length > 50 then trans.drop (trans.length - 50) else trans
  { s with zones := zones2, recentTransitions := trans2 }

/-- The `newZoneStates` loop of `ZoneManager::updatePosition` (lines 254-260):
or together `1 << i` for every active zone containing the point. -/
def computeZoneStates (x y : ℚ) (zones : List Zone) (i : ℕ) : ℕ :=
  match zones with
  | [] => 0
  | z :: rest =>
    (if z.config.isActive = true ∧ isPointInPolygon x y z = true then 1 <<< i else 0)
      ||| computeZoneStates x y rest (i + 1)

/-- `ZoneManager::updatePosition` (lines 243-274). `millis()` is the explicit
parameter `t`. `new & ~old` over `uint8_t` is `Nat.ldiff` (identical for
masks below bit 8). -/
def zmUpdatePosition (s : ZMState) (x y : ℚ) (valid : Bool) (t : ℕ) : ZMState :=
  let s0 := { s with lastKnownX := x, lastKnownY := y,
                     positionValid := valid, lastPositionUpdate := t }
  if valid = false ∨ s0.zones.length = 0 then s0
  else
    let newZoneStates := computeZoneStates x y s0.zones 0
    let enteredZones := Nat.ldiff newZoneStates s0.currentZoneStates
    let exitedZones := Nat.ldiff s0.currentZoneStates newZoneStates
    let s1 := if enteredZones ≠ 0 ∨ exitedZones ≠ 0
              then processZoneTransitions s0 enteredZones exitedZones t else s0
    { s1 with previousZoneStates := s0.currentZoneStates,
              currentZoneStates := newZoneStates }

/-! ## TriangulationManager.h : least-squares trilateration

`float` arithmetic (squares, square roots, `pow(10, ·)`) is embedded over `ℝ`.
`millis()` is an explicit parameter; `Position2D.timestamp` is dropped because
no verified logic ever reads it; the position/confidence callbacks are
side-effect-only and are omitted. -/

/-- `Beacon` from `micro_beacon_manager.h` (lines 59-71), the element type of
`TriangulationManager::updatePosition`'s argument. -/
structure Beacon where
  name : List Char
  rssi : ℤ
  distance : ℝ
  address : List Char
  lastSeen : ℕ

/-- `Position2D` from `TriangulationManager.h` (lines 57-91), without the
never-read `timestamp` field. -/
structure Position2D where
  x : ℝ
  y : ℝ
  confidence : ℝ

namespace Position2D

/-- The default constructor `Position2D()`. -/
def default : Position2D := ⟨0, 0, 0⟩

/-- `Position2D::distanceTo` (lines 77-81). -/
noncomputable def distanceTo (p other : Position2D) : ℝ :=
  let dx := p.x - other.x
  let dy := p.y - other.y
  Real.sqrt (dx * dx + dy * dy)

/-- `Position2D::isValid` (lines 86-90): confidence at least the
`POSITION_CONFIDENCE_THRESHOLD` of `0.6` and sane coordinates (the `isnan`
check is vacuous over `ℝ`). -/
noncomputable def isValid (p : Position2D) : Bool :=
  decide ((0.6 : ℝ) ≤ p.confidence) && decide (|p.x| < 1000) && decide (|p.y| < 1000)

end Position2D

/-- `BeaconPosition` from `TriangulationManager.h` (lines 96-115). -/
structure BeaconPosition where
  name : List Char
  location : List Char
  x : ℝ
  y : ℝ
  z : ℝ
  active : Bool
  lastSeen : ℕ

/-- `KalmanState` from `TriangulationManager.h` (lines 120-134). -/
structure KalmanState where
  x : ℝ
  y : ℝ
  vx : ℝ
  vy : ℝ
  px : ℝ
  py : ℝ
  pvx : ℝ
  pvy : ℝ
  lastUpdate : ℕ

/-- The private state of class `TriangulationManager` (lines 152-178). -/
structure TMState where
  knownBeacons : List BeaconPosition
  activeBeacons : List Beacon
  positionHistory : List Position2D
  currentPosition : Position2D
  lastValidPosition : Position2D
  kalmanFilter : KalmanState
  initialized : Bool
  positionValid : Bool
  currentConfidence : ℝ
  lastTriangulation : ℕ
  lastPositionUpdate : ℕ
  enableKalmanFilter : Bool
  enableOutlierDetection : Bool
  minBeaconDistance : ℝ
  maxBeaconDistance : ℝ

namespace TriangulationManager

/-- The Arduino `constrain(amt, low, high)` macro. -/
noncomputable def constrain (amt low high : ℝ) : ℝ :=
  if amt < low then low else if amt > high then high else amt

/-- `TriangulationManager::findBeaconPosition` (lines 215-222): first known
beacon whose name or location matches. -/
def findBeaconPosition (knownBeacons : List BeaconPosition) (name : List Char) :
    Option BeaconPosition :=
  knownBeacons.find? (fun b => decide (b.name = name ∨ b.location = name))

/-- `TriangulationManager::rssiToDistance` (lines 199-210):
`10^((RSSI_REF_POWER − rssi)/(10·PATH_LOSS_EXPONENT)) · ENVIRONMENTAL_FACTOR`
constrained to the configured beacon-distance bounds. -/
noncomputable def rssiToDistance (s : TMState) (rssi : ℤ) : ℝ :=
  if rssi = 0 then 999.0
  else
    let ratio : ℝ := (-59.0) - (rssi : ℝ)
    let distance := (10.0 : ℝ) ^ (ratio / (10.0 * 2.0)) * 1.2
    constrain distance s.minBeaconDistance s.maxBeaconDistance

/-- One row of the linear system built by
`TriangulationManager::calculateLeastSquaresPosition` (lines 240-251):
`((2·dx, 2·dy), dr2 + dxy2)` for a non-reference beacon. -/
noncomputable def triangulationRow (ref : BeaconPosition) (b0 : Beacon)
    (beacon : BeaconPosition) (bi : Beacon) : ℝ × ℝ × ℝ :=
  let dx := beacon.x - ref.x
  let dy := beacon.y - ref.y
  let dr2 := b0.distance * b0.distance - bi.distance * bi.distance
  let dxy2 := beacon.x * beacon.x + beacon.y * beacon.y - ref.x * ref.x - ref.y * ref.y
  (2 * dx, 2 * dy, dr2 + dxy2)

/-- The row list of the loop `for (i = 1; i < size && i < 6; i++)`: beacons
`1..5`, skipping those without a known position. The `A` and `b` vectors are
pushed in lockstep in the source, so they are modelled as one row list. -/
noncomputable def triangulationRows (knownBeacons : List BeaconPosition)
    (ref : BeaconPosition) (b0 : Beacon) (rest : List Beacon) : List (ℝ × ℝ × ℝ) :=
  rest.filterMap (fun bi =>
    (findBeaconPosition knownBeacons bi.name).map (fun beacon =>
      triangulationRow ref b0 beacon bi))

/-- `A^T A` entry `(0,0)` of `TriangulationManager::solveLeastSquares`. -/
noncomputable def ata00 (rows : List (ℝ × ℝ × ℝ)) : ℝ :=
  (rows.map (fun r => r.1 * r.1)).sum

/-- `A^T A` entry `(0,1) = (1,0)`. -/
noncomputable def ata01 (rows : List (ℝ × ℝ × ℝ)) : ℝ :=
  (rows.map (fun r => r.1 * r.2.1)).sum

/-- `A^T A` entry `(1,1)`. -/
noncomputable def ata11 (rows : List (ℝ × ℝ × ℝ)) : ℝ :=
  (rows.map (fun r => r.2.1 * r.2.1)).sum

/-- `A^T b` entry `0`. -/
noncomputable def atb0 (rows : List (ℝ × ℝ × ℝ)) : ℝ :=
  (rows.map (fun r => r.1 * r.2.2)).sum

/-- `A^T b` entry `1`. -/
noncomputable def atb1 (rows : List (ℝ × ℝ × ℝ)) : ℝ :=
  (rows.map (fun r => r.2.1 * r.2.2)).sum

/-- The determinant `ata00·ata11 − ata01²` of the 2×2 normal matrix. -/
noncomputable def normalDet (rows : List (ℝ × ℝ × ℝ)) : ℝ :=
  ata00 rows * ata11 rows - ata01 rows * ata01 rows

/-- `TriangulationManager::solveLeastSquares` (lines 269-293): solve the
normal equations by the closed-form 2×2 inverse; a determinant below `1e-6`
in absolute value is treated as singular and yields the default position. -/
noncomputable def solveLeastSquares (rows : List (ℝ × ℝ × ℝ)) : Position2D :=
  if rows.length < 2 then Position2D.default
  else
    let det := normalDet rows
    if |det| < 1e-6 then Position2D.default
    else
      let invDet := 1.0 / det
      ⟨invDet * (ata11 rows * atb0 rows - ata01 rows * atb1 rows),
       invDet * (ata00 rows * atb1 rows - ata01 rows * atb0 rows),
       1.0⟩

/-- `TriangulationManager::calculateResidualError` (lines 298-313): mean
absolute difference between predicted and measured distances over the beacons
with known positions, `999` when there are none. -/
noncomputable def calculateResidualError (knownBeacons : List BeaconPosition)
    (position : Position2D) (beacons : List Beacon) : ℝ :=
  let errs := beacons.filterMap (fun b =>
    (findBeaconPosition knownBeacons b.name).map (fun beaconPos =>
      |Real.sqrt ((position.x - beaconPos.x) ^ 2 + (position.y - beaconPos.y) ^ 2)
        - b.distance|))
  if 0 < errs.length then errs.sum / (errs.length : ℝ) else 999.0

/-- `TriangulationManager::calculateLeastSquaresPosition` (lines 227-264). -/
noncomputable def calculateLeastSquaresPosition (knownBeacons : List BeaconPosition)
    (beacons : List Beacon) : Position2D :=
  if beacons.length < 3 then Position2D.default
  else
    match beacons with
    | [] => Position2D.default
    | b0 :: rest =>
      match findBeaconPosition knownBeacons b0.name with
      | none => Position2D.default
      | some refBeacon =>
        let rows := triangulationRows knownBeacons refBeacon b0 (rest.take 5)
        if rows.length < 2 then Position2D.default
        else
          let result := solveLeastSquares rows
          let residualError := calculateResidualError knownBeacons result beacons
          { result with confidence := 1.0 / (1.0 + residualError) }

/-- `TriangulationManager::applyKalmanFilter` (lines 318-357), returning the
updated filter state together with the smoothed position. -/
noncomputable def applyKalmanFilter (s : TMState) (currentTime : ℕ)
    (measurement : Position2D) : KalmanState × Position2D :=
  if s.enableKalmanFilter = false then (s.kalmanFilter, measurement)
  else
    let k := s.kalmanFilter
    let dt : ℝ := ((currentTime - k.lastUpdate : ℕ) : ℝ) / 1000.0
    if k.lastUpdate = 0 then
      ({ k with x := measurement.x, y := measurement.y, vx := 0, vy := 0,
                lastUpdate := currentTime }, measurement)
    else
      let x1 := k.x + k.vx * dt
      let y1 := k.y + k.vy * dt
      let px1 := k.px + 0.1 * dt
      let py1 := k.py + 0.1 * dt
      let pvx1 := k.pvx + 0.1 * dt
      let pvy1 := k.pvy + 0.1 * dt
      let kx := px1 / (px1 + 1.0)
      let ky := py1 / (py1 + 1.0)
      let x2 := x1 + kx * (measurement.x - x1)
      let y2 := y1 + ky * (measurement.y - y1)
      ({ x := x2, y := y2, vx := k.vx, vy := k.vy,
         px := px1 * (1.0 - kx), py := py1 * (1.0 - ky),
         pvx := pvx1, pvy := pvy1, lastUpdate := currentTime },
       ⟨x2, y2, measurement.confidence⟩)

/-- The last `min 5 (length)` entries of the position history inspected by
`TriangulationManager::isPositionOutlier`. -/
def recentPositions (history : List Position2D) : List Position2D :=
  history.drop (history.length - min 5 history.length)

/-- `TriangulationManager::isPositionOutlier` (lines 362-379): mean distance
to the recent history above the 10-unit threshold. -/
noncomputable def isPositionOutlier (s : TMState) (position : Position2D) : Bool :=
  if s.enableOutlierDetection = false ∨ s.positionHistory.isEmpty = true then false
  else
    let recent := recentPositions s.positionHistory
    let recentCount : ℝ := ((min 5 s.positionHistory.length : ℕ) : ℝ)
    let totalDistance := (recent.map (fun q => position.distanceTo q)).sum
    let averageDistance := totalDistance / recentCount
    decide (averageDistance > 10.0)

/-- `TriangulationManager::updatePositionHistory` (lines 384-391): append and
keep at most `POSITION_HISTORY_SIZE = 20` entries. -/
def updatePositionHistory (history : List Position2D) (position : Position2D) :
    List Position2D :=
  let h := history ++ [position]
  if h.length > 20 then h.drop 1 else h

/-- The active-beacon filter at the top of
`TriangulationManager::updatePosition` (lines 440-447): keep beacons with a
nonzero rssi and a known position, recomputing their distance from rssi. -/
noncomputable def filterActiveBeacons (s : TMState) (beacons : List Beacon) : List Beacon :=
  beacons.filterMap (fun b =>
    if b.rssi ≠ 0 ∧ (findBeaconPosition s.knownBeacons b.name).isSome then
      some { b with distance := rssiToDistance s b.rssi }
    else none)

/-- `TriangulationManager::updatePosition` (lines 434-490): the per-cycle
estimation step, returning the new state and the C++ `bool` result. -/
noncomputable def updatePosition (s : TMState) (beacons : List Beacon)
    (currentTime : ℕ) : TMState × Bool :=
  if s.initialized = false then (s, false)
  else
    let active := filterActiveBeacons s beacons
    let s1 := { s with activeBeacons := active }
    if active.length < 3 then
      ({ s1 with positionValid := false, currentConfidence := 0 }, false)
    else
      let newPosition := calculateLeastSquaresPosition s.knownBeacons active
      if newPosition.isValid = false ∨ isPositionOutlier s1 newPosition = true then
        (s1, false)
      else
        let kf := applyKalmanFilter s1 currentTime newPosition
        let smoothed := kf.2
        ({ s1 with kalmanFilter := kf.1,
                   currentPosition := smoothed,
                   currentConfidence := smoothed.confidence,
                   positionValid := true,
                   lastValidPosition := smoothed,
                   lastTriangulation := currentTime,
                   positionHistory := updatePositionHistory s1.positionHistory smoothed },
         true)

/-! ### Exactness of the least-squares solver -/

/-- A row of the linear system is satisfied exactly by `(px, py)`. -/
def rowExact (px py : ℝ) (r : ℝ × ℝ × ℝ) : Prop := r.1 * px + r.2.1 * py = r.2.2

end TriangulationManager

/-! ## Claim C5 -/

/-- A concrete active triangular zone with a 3-second configured
`alertDelay`. -/
def zoneC5 : Zone :=
  ⟨"zone1".toList, "Garden".toList, [(0, 0), (4, 0), (0, 4)], "#8B5CF6".toList,
    ⟨5, 3, 2, true⟩, true, 0, false⟩

/-- Zone-manager state holding only `zoneC5`, with empty transition log. -/
def zmStateC5 : ZMState := ⟨[zoneC5], 0, 0, [], 0, 0, 0, false⟩

/-- The default-constructed `KalmanState`. -/
def kalmanInit : KalmanState := ⟨0, 0, 0, 0, 1, 1, 1, 1, 0⟩

/-- Two known beacon positions for the two-beacon scenario. -/
def kbA : BeaconPosition := ⟨"A".toList, "LivingRoom".toList, 0, 0, 0, true, 0⟩

/-- Second known beacon position. -/
def kbB : BeaconPosition := ⟨"B".toList, "Kitchen".toList, 5, 0, 0, true, 0⟩

/-- An initialized manager state knowing beacons `A` and `B`. -/
def tmStateC3 : TMState :=
  ⟨[kbA, kbB], [], [], Position2D.default, Position2D.default, kalmanInit,
    true, false, 0, 0, 0, true, true, 0.5, 50⟩

/-- A scan with only two active beacons. -/
def bsC3 : List Beacon := [⟨"A".toList, -59, 0, [], 0⟩, ⟨"B".toList, -59, 0, [], 0⟩]

/-- Collinear known beacon at the origin. -/
def kbP : BeaconPosition := ⟨['P'], ['P', '1'], 0, 0, 0, true, 0⟩

/-- Collinear known beacon at `(1, 0)`. -/
def kbQ : BeaconPosition := ⟨['Q'], ['Q', '1'], 1, 0, 0, true, 0⟩

/-- Collinear known beacon at `(2, 0)`. -/
def kbR : BeaconPosition := ⟨['R'], ['R', '1'], 2, 0, 0, true, 0⟩

/-- A registry whose three known beacons are collinear on the x-axis. -/
def kbsC1 : List BeaconPosition := [kbP, kbQ, kbR]

/-- Beacon `P` reporting its exact distance `3` from the true position `(3,0)`. -/
def bP : Beacon := ⟨['P'], -70, 3, [], 0⟩

/-- Beacon `Q` reporting its exact distance `2` from `(3,0)`. -/
def bQ : Beacon := ⟨['Q'], -70, 2, [], 0⟩

/-- Beacon `R` reporting its exact distance `1` from `(3,0)`. -/
def bR : Beacon := ⟨['R'], -70, 1, [], 0⟩

/-- Known beacon `U` at the origin for the witness geometry. -/
def kbU : BeaconPosition := ⟨['U'], ['U', '1'], 0, 0, 0, true, 0⟩

/-- Known beacon `V` at `(4, 0)`. -/
def kbV : BeaconPosition := ⟨['V'], ['V', '1'], 4, 0, 0, true, 0⟩

/-- Known beacon `W` at `(0, 3)`. -/
def kbW : BeaconPosition := ⟨['W'], ['W', '1'], 0, 3, 0, true, 0⟩

/-- A registry with three non-collinear known beacons. -/
def kbsW : List BeaconPosition := [kbU, kbV, kbW]

/-- Beacon `U` reporting its exact distance `0` from the true position `(0,0)`. -/
def bU : Beacon := ⟨['U'], -59, 0, [], 0⟩

/-- Beacon `V` reporting its exact distance `4` from `(0,0)`. -/
def bV : Beacon := ⟨['V'], -80, 4, [], 0⟩

/-- Beacon `W` reporting its exact distance `3` from `(0,0)`. -/
def bW : Beacon := ⟨['W'], -78, 3, [], 0⟩

/-- A manager state over the collinear registry `kbsC1`, with default
distance bounds `0.5`/`50`. -/
def tmStateC2 : TMState :=
  ⟨kbsC1, [], [], Position2D.default, Position2D.default, kalmanInit,
    true, false, 0, 0, 0, true, true, 0.5, 50⟩

/-- A cycle in which the three collinear beacons all report rssi `-59`. -/
def bsC2 : List Beacon :=
  [⟨['P'], -59, 0, [], 0⟩, ⟨['Q'], -59, 0, [], 0⟩, ⟨['R'], -59, 0, [], 0⟩]

/-- Beacon `P` after the filter recomputes its distance (`1.2` at rssi `-59`). -/
def bP2 : Beacon := ⟨['P'], -59, 1.2, [], 0⟩

/-- Beacon `Q` after distance recomputation. -/
def bQ2 : Beacon := ⟨['Q'], -59, 1.2, [], 0⟩

/-- Beacon `R` after distance recomputation. -/
def bR2 : Beacon := ⟨['R'], -59, 1.2, [], 0⟩

/-! ## Claim C8 -/

/-- The 2D position as a complex number, for the triangle inequality. -/
noncomputable def toC (p : Position2D) : ℂ := ⟨p.x, p.y⟩

/-- The claim's "running average of the recent bounded position history": the
componentwise mean of the entries the outlier test inspects. -/
noncomputable def centroidOf (l : List Position2D) : Position2D :=
  ⟨(l.map Position2D.x).sum / l.length, (l.map Position2D.y).sum / l.length, 0⟩

/-- A manager whose recent history average sits at `(20, 0)` while the next
(defaulted) estimate is at the origin, 20 units away. -/
def tmStateC8 : TMState :=
  ⟨[], [], [⟨20, 0, 1⟩], Position2D.default, Position2D.default, kalmanInit,
    true, false, 0, 0, 0, true, true, 0.5, 50⟩

/-! ## Claim C7 : BeaconManager_Enhanced::calculateDistance -/

/-- Arduino `constrain` over `float`, as used by the beacon manager. -/
noncomputable def constrainR (amt low high : ℝ) : ℝ :=
  if amt < low then low else if amt > high then high else amt

/-- `BeaconManager_Enhanced::calculateDistance` from
`manager_implementations.cpp` (lines 158-180): ultra-close calibrated path
loss model `10^((TX_POWER_DBM − rssi)/(10·PATH_LOSS_EXP))` with a 1 cm
contact offset, clamped at 0 and converted to cm, capped at
`BLE_MAX_DISTANCE_CM = 500`. -/
noncomputable def calculateDistance (rssi : ℤ) : ℝ :=
  if 0 ≤ rssi then 0.0
  else
    let d0 := (10.0 : ℝ) ^ (((-65.0) - (rssi : ℝ)) / (10.0 * 1.8))
    let d1 := d0 - 0.01
    let d2 := if d1 < 0 then 0.0 else d1
    let distance_cm := d2 * 100.0
    constrainR distance_cm 0.0 500.0

/-! ## Claim C10 : refactored ZoneManager.h Zone::containsPoint -/


/-- `ZoneSchedule` from the refactored `ZoneManager.h` (lines 76-124). -/
structure ZoneSchedule where
  enabled : Bool
  startHour : ℕ
  startMinute : ℕ
  endHour : ℕ
  endMinute : ℕ
  activeDays : ℕ

/-- `ZoneSchedule::isActive` (lines 98-123) at tick `t` (the `millis()`
value): disabled schedules are always active; otherwise the hard-coded
Monday day bit and the start/end time window are checked. -/
def ZoneSchedule.isActiveAt (s : ZoneSchedule) (t : ℕ) : Bool :=
  if s.enabled = false then true
  else
    let currentSeconds := (t / 1000) % 86400
    let currentHour := currentSeconds / 3600
    let currentMinute := (currentSeconds % 3600) / 60
    let currentDay := 1
    if s.activeDays.testBit (currentDay - 1) = false then false
    else
      let startTime := s.startHour * 60 + s.startMinute
      let endTime := s.endHour * 60 + s.endMinute
      let currentTime := currentHour * 60 + currentMinute
      if startTime ≤ endTime then decide (startTime ≤ currentTime ∧ currentTime ≤ endTime)
      else decide (startTime ≤ currentTime ∨ currentTime ≤ endTime)

/-- `ZoneShape` from the refactored `ZoneManager.h` (lines 67-71). -/
inductive ZoneShapeR where
  | circle
  | rectangle
  | polygon

/-- `Point2D::distanceTo` of the refactored `ZoneManager.h` (lines 136-140). -/
noncomputable def pointDistanceTo (p other : ℝ × ℝ) : ℝ :=
  let dx := p.1 - other.1
  let dy := p.2 - other.2
  Real.sqrt (dx * dx + dy * dy)

/-- `Zone::pointInPolygon` of the refactored `ZoneManager.h` (lines 318-333):
ray casting with predecessor index `j` (starting at `n-1`); the boolean
`inside` toggle equals the parity of the satisfied-edge count. -/
noncomputable def pointInPolygonR (point : ℝ × ℝ) (polygon : List (ℝ × ℝ)) : Bool :=
  if polygon.length < 3 then false
  else
    let n := polygon.length
    let cnt := (List.range n).countP (fun i =>
      let pi := polygon.getD i (0, 0)
      let pj := polygon.getD ((i + n - 1) % n) (0, 0)
      decide (¬ ((pi.2 > point.2) ↔ (pj.2 > point.2)) ∧
        point.1 < (pj.1 - pi.1) * (point.2 - pi.2) / (pj.2 - pi.2) + pi.1))
    decide (cnt % 2 = 1)

/-- `Zone` of the refactored `ZoneManager.h` (lines 146-369); the string
metadata and bookkeeping timestamps are carried but never branch the
containment logic. -/
structure ZoneR where
  id : List Char
  name : List Char
  description : List Char
  ztype : ℕ
  shape : ZoneShapeR
  active : Bool
  alertEnabled : Bool
  schedule : ZoneSchedule
  center : ℝ × ℝ
  radius : ℝ
  width : ℝ
  height : ℝ
  vertices : List (ℝ × ℝ)
  alertCooldown : ℕ
  priority : ℕ
  lastAlert : ℕ
  createdTime : ℕ
  lastModified : ℕ

/-- `Zone::containsPoint` (lines 215-237): an inactive or out-of-schedule
zone contains nothing; otherwise dispatch on the shape. -/
noncomputable def ZoneR.containsPoint (zone : ZoneR) (point : ℝ × ℝ) (t : ℕ) : Bool :=
  if zone.active = false ∨ zone.schedule.isActiveAt t = false then false
  else
    match zone.shape with
    | ZoneShapeR.circle => decide (pointDistanceTo zone.center point ≤ zone.radius)
    | ZoneShapeR.rectangle =>
      decide (zone.center.1 - zone.width / 2 ≤ point.1 ∧
        point.1 ≤ zone.center.1 + zone.width / 2 ∧
        zone.center.2 - zone.height / 2 ≤ point.2 ∧
        point.2 ≤ zone.center.2 + zone.height / 2)
    | ZoneShapeR.polygon => pointInPolygonR point zone.vertices

/-- A deactivated circular zone. -/
def zoneC10a : ZoneR :=
  ⟨"z10".toList, "Porch".toList, [], 0, ZoneShapeR.circle, false, true,
    ⟨false, 0, 0, 23, 59, 127⟩, (0, 0), 10, 0, 0, [], 5000, 128, 0, 0, 0⟩

/-- An active zone whose enabled schedule has no active days. -/
def zoneC10b : ZoneR :=
  ⟨"z11".toList, "Yard".toList, [], 0, ZoneShapeR.circle, true, true,
    ⟨true, 0, 0, 23, 59, 0⟩, (0, 0), 10, 0, 0, [], 5000, 128, 0, 0, 0⟩

/-- Cross product `(b − a) × (p − a)`: positive when `p` lies strictly to the
left of the directed line `a → b`. -/
def crs (a b p : ℚ × ℚ) : ℚ :=
  (b.1 - a.1) * (p.2 - a.2) - (b.2 - a.2) * (p.1 - a.1)

/-- Vertex `i` of a vertex list (the polygon's `points[i]`). -/
def vtx (vs : List (ℚ × ℚ)) (i : ℕ) : ℚ × ℚ := vs.getD i (0, 0)

/-- The claim's "convex polygon": every vertex lies strictly to the left of
every directed edge `(v i, v ((i+1) % n))` — strictly convex vertices listed
counterclockwise. -/
def StrictlyConvex (vs : List (ℚ × ℚ)) : Prop :=
  ∀ i < vs.length, ∀ j < vs.length, j ≠ i → j ≠ (i + 1) % vs.length →
    0 < crs (vtx vs i) (vtx vs ((i + 1) % vs.length)) (vtx vs j)

/-- The polygon's centroid: the componentwise vertex average. -/
def vertexCentroid (vs : List (ℚ × ℚ)) : ℚ × ℚ :=
  ((vs.map Prod.fst).sum / vs.length, (vs.map Prod.snd).sum / vs.length)

/-- The x-coordinate where edge `a → b` meets the horizontal line at `py`
(the code's `intersectionX`). -/
def intersectX (a b : ℚ × ℚ) (py : ℚ) : ℚ :=
  a.1 + (py - a.2) * (b.1 - a.1) / (b.2 - a.2)

/-- A complete triangular zone with vertices (0,0), (4,0), (0,4), listed
counterclockwise. -/
def zoneC9 : Zone :=
  ⟨"z9".toList, "Field".toList, [(0, 0), (4, 0), (0, 4)], "#8B5CF6".toList,
    ⟨5, 3, 2, true⟩, true, 0, false⟩

end PetCollar

namespace PetCollar

namespace TriangulationManager

/-- When every row holds exactly, the first normal equation holds. -/
theorem atb0_of_exact (px py : ℝ) (rows : List (ℝ × ℝ × ℝ))
    (h : ∀ r ∈ rows, rowExact px py r) :
    atb0 rows = ata00 rows * px + ata01 rows * py := by
  induction rows with
  | nil => simp [atb0, ata00, ata01]
  | cons r rows ih =>
    have hr := h r (List.mem_cons_self r rows)
    have ih2 := ih (fun q hq => h q (List.mem_cons_of_mem r hq))
    simp only [atb0, ata00, ata01, List.map_cons, List.sum_cons] at ih2 ⊢
    rw [rowExact] at hr
    linear_combination ih2 - r.1 * hr

/-- When every row holds exactly, the second normal equation holds. -/
theorem atb1_of_exact (px py : ℝ) (rows : List (ℝ × ℝ × ℝ))
    (h : ∀ r ∈ rows, rowExact px py r) :
    atb1 rows = ata01 rows * px + ata11 rows * py := by
  induction rows with
  | nil => simp [atb1, ata01, ata11]
  | cons r rows ih =>
    have hr := h r (List.mem_cons_self r rows)
    have ih2 := ih (fun q hq => h q (List.mem_cons_of_mem r hq))
    simp only [atb1, ata01, ata11, List.map_cons, List.sum_cons] at ih2 ⊢
    rw [rowExact] at hr
    linear_combination ih2 - r.2.1 * hr

/-- On an exactly-consistent system with a usable determinant, the closed-form
normal-equation solver recovers the exact solution with confidence 1. -/
theorem solveLeastSquares_exact (px py : ℝ) (rows : List (ℝ × ℝ × ℝ))
    (hlen : 2 ≤ rows.length)
    (h : ∀ r ∈ rows, rowExact px py r)
    (hdet : 1e-6 ≤ |normalDet rows|) :
    solveLeastSquares rows = ⟨px, py, 1⟩ := by
  have hne : normalDet rows ≠ 0 := by
    intro h0
    rw [h0] at hdet
    norm_num at hdet
  have h0 := atb0_of_exact px py rows h
  have h1 := atb1_of_exact px py rows h
  have hx : ata11 rows * atb0 rows - ata01 rows * atb1 rows = normalDet rows * px := by
    rw [h0, h1, normalDet]; ring
  have hy : ata00 rows * atb1 rows - ata01 rows * atb0 rows = normalDet rows * py := by
    rw [h0, h1, normalDet]; ring
  rw [solveLeastSquares, if_neg (by omega), if_neg (by push_neg; exact hdet), hx, hy]
  simp only [Position2D.mk.injEq]
  refine ⟨?_, ?_, by norm_num⟩ <;> field_simp <;> ring

/-- Rows built from distances measured exactly from `(px, py)` satisfy the
squared-distance-difference identity exactly. -/
theorem triangulationRows_exact (kbs : List BeaconPosition) (ref : BeaconPosition)
    (b0 : Beacon) (rest : List Beacon) (px py : ℝ)
    (h0 : b0.distance = Real.sqrt ((ref.x - px) ^ 2 + (ref.y - py) ^ 2))
    (hrest : ∀ b ∈ rest, ∀ bp, findBeaconPosition kbs b.name = some bp →
      b.distance = Real.sqrt ((bp.x - px) ^ 2 + (bp.y - py) ^ 2)) :
    ∀ r ∈ triangulationRows kbs ref b0 rest, rowExact px py r := by
  intro r hr
  rw [triangulationRows, List.mem_filterMap] at hr
  obtain ⟨bi, hbi, hmap⟩ := hr
  rw [Option.map_eq_some'] at hmap
  obtain ⟨bp, hfind, hrow⟩ := hmap
  have e0 : b0.distance * b0.distance = (ref.x - px) ^ 2 + (ref.y - py) ^ 2 := by
    rw [h0]; exact Real.mul_self_sqrt (by positivity)
  have ei : bi.distance * bi.distance = (bp.x - px) ^ 2 + (bp.y - py) ^ 2 := by
    rw [hrest bi hbi bp hfind]; exact Real.mul_self_sqrt (by positivity)
  subst hrow
  simp only [rowExact, triangulationRow]
  linear_combination ei - e0

/-- When every considered beacon has a known position, no row is skipped. -/
theorem triangulationRows_length (kbs : List BeaconPosition) (ref : BeaconPosition)
    (b0 : Beacon) (rest : List Beacon)
    (h : ∀ b ∈ rest, (findBeaconPosition kbs b.name).isSome = true) :
    (triangulationRows kbs ref b0 rest).length = rest.length := by
  induction rest with
  | nil => simp [triangulationRows]
  | cons b rest ih =>
    obtain ⟨bp, hbp⟩ := Option.isSome_iff_exists.mp (h b (List.mem_cons_self b rest))
    have ih2 := ih (fun q hq => h q (List.mem_cons_of_mem b hq))
    rw [triangulationRows] at ih2 ⊢
    simp [List.filterMap_cons, hbp, ih2]

/-- Exact distances give zero residual error at the true position. -/
theorem calculateResidualError_exact (kbs : List BeaconPosition)
    (beacons : List Beacon) (px py c : ℝ)
    (hexact : ∀ b ∈ beacons, ∀ bp, findBeaconPosition kbs b.name = some bp →
      b.distance = Real.sqrt ((bp.x - px) ^ 2 + (bp.y - py) ^ 2))
    (hsome : ∃ b ∈ beacons, (findBeaconPosition kbs b.name).isSome = true) :
    calculateResidualError kbs ⟨px, py, c⟩ beacons = 0 := by
  rw [calculateResidualError]
  have hz : ∀ e ∈ beacons.filterMap (fun b =>
      (findBeaconPosition kbs b.name).map (fun beaconPos =>
        |Real.sqrt ((px - beaconPos.x) ^ 2 + (py - beaconPos.y) ^ 2) - b.distance|)), e = 0 := by
    intro e he
    rw [List.mem_filterMap] at he
    obtain ⟨b, hb, hmap⟩ := he
    rw [Option.map_eq_some'] at hmap
    obtain ⟨bp, hfind, he⟩ := hmap
    have harg : (px - bp.x) ^ 2 + (py - bp.y) ^ 2 = (bp.x - px) ^ 2 + (bp.y - py) ^ 2 := by
      ring
    rw [← he, hexact b hb bp hfind, harg, sub_self, abs_zero]
  have hpos : 0 < (beacons.filterMap (fun b =>
      (findBeaconPosition kbs b.name).map (fun beaconPos =>
        |Real.sqrt ((px - beaconPos.x) ^ 2 + (py - beaconPos.y) ^ 2) - b.distance|))).length := by
    obtain ⟨b, hb, hsome⟩ := hsome
    obtain ⟨bp, hbp⟩ := Option.isSome_iff_exists.mp hsome
    have hmem : |Real.sqrt ((px - bp.x) ^ 2 + (py - bp.y) ^ 2) - b.distance| ∈
        beacons.filterMap (fun b =>
          (findBeaconPosition kbs b.name).map (fun beaconPos =>
            |Real.sqrt ((px - beaconPos.x) ^ 2 + (py - beaconPos.y) ^ 2) - b.distance|)) :=
      List.mem_filterMap.mpr ⟨b, hb, by rw [hbp, Option.map_some']⟩
    exact List.length_pos.mpr (List.ne_nil_of_mem hmem)
  rw [if_pos hpos, List.sum_eq_zero hz, zero_div]

end TriangulationManager

/-! ## Bitmask helper lemmas (`uint8` `new & ~old` arithmetic) -/

theorem ldiff_zero_right (n : ℕ) : Nat.ldiff n 0 = n := by
  apply Nat.eq_of_testBit_eq; intro i; simp [Nat.testBit_ldiff]

theorem ldiff_zero_left (n : ℕ) : Nat.ldiff 0 n = 0 := by
  apply Nat.eq_of_testBit_eq; intro i; simp [Nat.testBit_ldiff]

theorem ldiff_self (n : ℕ) : Nat.ldiff n n = 0 := by
  apply Nat.eq_of_testBit_eq; intro i; simp [Nat.testBit_ldiff]

/-- Containment only reads a zone's geometry; marking it occupied (as the
entry loop of `processZoneTransitions` does) cannot change the test. -/
theorem isPointInPolygon_occupied (x y : ℚ) (z : Zone) (t : ℕ) :
    isPointInPolygon x y
      { z with currentlyOccupied := true, lastTriggered := t } = isPointInPolygon x y z := rfl

/-! ## Claim C4 -/

/-- Claim C4: a `ZoneManager::updatePosition` call with `valid = false` leaves
the occupancy bitmask, every zone record (hence every `currentlyOccupied`
flag) and the transition log unchanged — it only refreshes the last-known
position fields. -/
theorem C4_theorem (s : ZMState) (x y : ℚ) (t : ℕ) :
    (zmUpdatePosition s x y false t).currentZoneStates = s.currentZoneStates ∧
    (zmUpdatePosition s x y false t).zones = s.zones ∧
    (zmUpdatePosition s x y false t).recentTransitions = s.recentTransitions ∧
    (zmUpdatePosition s x y false t).previousZoneStates = s.previousZoneStates := by
  simp [zmUpdatePosition]

/-- Claim C5, counterexample: the zone has `alertDelay = 3` seconds, and the
position crosses into the zone at `t = 1000` ms and back out at `t = 2000` ms
(well within the delay), yet two transition events are emitted, not zero —
`ZoneManager::updatePosition` never consults `alertDelay`. -/
theorem C5_counterexample :
    (zmUpdatePosition (zmUpdatePosition zmStateC5 1 1 true 1000)
        10 10 true 2000).recentTransitions.length = 2 ∧
    (zmUpdatePosition (zmUpdatePosition zmStateC5 1 1 true 1000)
        10 10 true 2000).recentTransitions.length ≠ 0 := by
  constructor <;>
    norm_num [zmUpdatePosition, zmStateC5, zoneC5, computeZoneStates, isPointInPolygon,
      rayIntersectsSegment, List.range_succ, List.countP_cons, List.countP_nil,
      processZoneTransitions, markEntered, markExited, transitionEvents,
      ldiff_zero_right, ldiff_zero_left]

/-- Claim C5 (amended): for an active zone, a position sequence that crosses
into the zone and back out yields exactly two immediate transition events
(one entered, one exited) regardless of the configured delay, and a sequence
that enters and stays inside yields exactly one entered event. -/
theorem C5_theorem (s : ZMState) (z : Zone) (x1 y1 x2 y2 : ℚ) (t1 t2 : ℕ)
    (hz : s.zones = [z]) (hcur : s.currentZoneStates = 0)
    (hact : z.config.isActive = true)
    (hin : isPointInPolygon x1 y1 z = true)
    (hout : isPointInPolygon x2 y2 z = false)
    (hlen : s.recentTransitions.length ≤ 48) :
    (zmUpdatePosition (zmUpdatePosition s x1 y1 true t1) x2 y2 true t2).recentTransitions
      = s.recentTransitions ++ [⟨z.zoneId, z.name, true, t1, x1, y1⟩,
                                ⟨z.zoneId, z.name, false, t2, x2, y2⟩] ∧
    (zmUpdatePosition (zmUpdatePosition s x1 y1 true t1) x1 y1 true t2).recentTransitions
      = s.recentTransitions ++ [⟨z.zoneId, z.name, true, t1, x1, y1⟩] := by
  have hnotgt : ¬ (s.recentTransitions.length + 1 > 50) := by omega
  have hnotgt2 : ¬ (s.recentTransitions.length + 1 + 1 > 50) := by omega
  constructor
  · simp [zmUpdatePosition, hz, hcur, hact, hin, hout, computeZoneStates,
      processZoneTransitions, markEntered, markExited, transitionEvents,
      isPointInPolygon_occupied,
      ldiff_zero_right, ldiff_zero_left, ldiff_self, hnotgt, hnotgt2]
  · simp [zmUpdatePosition, hz, hcur, hact, hin, computeZoneStates,
      processZoneTransitions, markEntered, markExited, transitionEvents,
      isPointInPolygon_occupied,
      ldiff_zero_right, ldiff_zero_left, ldiff_self, hnotgt, hnotgt2]

/-- Claim C5, witness: instantiates `C5_theorem` on the concrete triangular
zone, with point `(1,1)` inside and `(10,10)` outside. -/
theorem C5_witness :
    isPointInPolygon 1 1 zoneC5 = true ∧
    isPointInPolygon 10 10 zoneC5 = false ∧
    ((zmUpdatePosition (zmUpdatePosition zmStateC5 1 1 true 1000) 10 10 true 2000).recentTransitions
        = zmStateC5.recentTransitions ++
            [⟨zoneC5.zoneId, zoneC5.name, true, 1000, 1, 1⟩,
             ⟨zoneC5.zoneId, zoneC5.name, false, 2000, 10, 10⟩] ∧
     (zmUpdatePosition (zmUpdatePosition zmStateC5 1 1 true 1000) 1 1 true 2000).recentTransitions
        = zmStateC5.recentTransitions ++ [⟨zoneC5.zoneId, zoneC5.name, true, 1000, 1, 1⟩]) :=
  ⟨by norm_num [isPointInPolygon, zoneC5, rayIntersectsSegment, List.range_succ,
      List.countP_cons, List.countP_nil],
   by norm_num [isPointInPolygon, zoneC5, rayIntersectsSegment, List.range_succ,
      List.countP_cons, List.countP_nil],
   C5_theorem zmStateC5 zoneC5 1 1 10 10 1000 2000 rfl rfl rfl
    (by norm_num [isPointInPolygon, zoneC5, rayIntersectsSegment, List.range_succ,
        List.countP_cons, List.countP_nil])
    (by norm_num [isPointInPolygon, zoneC5, rayIntersectsSegment, List.range_succ,
        List.countP_cons, List.countP_nil])
    (by simp [zmStateC5])⟩

/-! ## Claim C3 -/

/-- Claim C3: when fewer than `MIN_BEACONS_FOR_TRIANGULATION = 3` usable
beacons survive the active-beacon filter, `TriangulationManager::updatePosition`
returns `false` with `positionValid_ = false` and confidence `0`, leaving the
current position untouched — an explicit "no estimate", not a position. -/
theorem C3_theorem (s : TMState) (beacons : List Beacon) (t : ℕ)
    (hinit : s.initialized = true)
    (hcount : (TriangulationManager.filterActiveBeacons s beacons).length < 3) :
    (TriangulationManager.updatePosition s beacons t).2 = false ∧
    (TriangulationManager.updatePosition s beacons t).1.positionValid = false ∧
    (TriangulationManager.updatePosition s beacons t).1.currentConfidence = 0 ∧
    (TriangulationManager.updatePosition s beacons t).1.currentPosition
      = s.currentPosition := by
  simp [TriangulationManager.updatePosition, hinit, hcount]

/-- Claim C3, witness: `C3_theorem` applied to a cycle in which only two
beacons report. -/
theorem C3_witness :
    tmStateC3.initialized = true ∧
    (TriangulationManager.filterActiveBeacons tmStateC3 bsC3).length < 3 ∧
    ((TriangulationManager.updatePosition tmStateC3 bsC3 1000).2 = false ∧
     (TriangulationManager.updatePosition tmStateC3 bsC3 1000).1.positionValid = false ∧
     (TriangulationManager.updatePosition tmStateC3 bsC3 1000).1.currentConfidence = 0 ∧
     (TriangulationManager.updatePosition tmStateC3 bsC3 1000).1.currentPosition
       = tmStateC3.currentPosition) :=
  ⟨rfl,
   by simp +decide [TriangulationManager.filterActiveBeacons,
        TriangulationManager.findBeaconPosition, tmStateC3, bsC3, kbA, kbB,
        List.find?, List.filterMap_cons],
   C3_theorem tmStateC3 bsC3 1000 rfl
     (by simp +decide [TriangulationManager.filterActiveBeacons,
           TriangulationManager.findBeaconPosition, tmStateC3, bsC3, kbA, kbB,
           List.find?, List.filterMap_cons])⟩

/-! ## Claim C1 -/

/-- `Real.sqrt 4 = 2`, for evaluating concrete distances. -/
theorem sqrt_four : Real.sqrt 4 = 2 := by
  rw [show (4 : ℝ) = 2 ^ 2 by norm_num, Real.sqrt_sq (by norm_num)]

/-- `Real.sqrt 9 = 3`. -/
theorem sqrt_nine : Real.sqrt 9 = 3 := by
  rw [show (9 : ℝ) = 3 ^ 2 by norm_num, Real.sqrt_sq (by norm_num)]

/-- `Real.sqrt 16 = 4`. -/
theorem sqrt_sixteen : Real.sqrt 16 = 4 := by
  rw [show (16 : ℝ) = 4 ^ 2 by norm_num, Real.sqrt_sq (by norm_num)]

/-- Claim C1, counterexample: three beacons at `(0,0)`, `(1,0)`, `(2,0)` report
distances `3`, `2`, `1`, computed exactly (no noise) from the true position
`(3,0)` — the first conjunct checks exactness — yet least-squares
trilateration returns a position more than `0.01` units away (it returns the
default `(0,0)`) with confidence `3/8`, far from 1: the collinear geometry
makes the normal determinant zero. -/
theorem C1_counterexample :
    ((3 : ℝ) = Real.sqrt ((0 - 3) ^ 2 + (0 - 0) ^ 2) ∧
     (2 : ℝ) = Real.sqrt ((1 - 3) ^ 2 + (0 - 0) ^ 2) ∧
     (1 : ℝ) = Real.sqrt ((2 - 3) ^ 2 + (0 - 0) ^ 2)) ∧
    0.01 < Position2D.distanceTo
      (TriangulationManager.calculateLeastSquaresPosition kbsC1 [bP, bQ, bR]) ⟨3, 0, 1⟩ ∧
    (TriangulationManager.calculateLeastSquaresPosition kbsC1 [bP, bQ, bR]).confidence
      < 0.9 := by
  have hfP : TriangulationManager.findBeaconPosition kbsC1 ['P'] = some kbP := by
    simp +decide [TriangulationManager.findBeaconPosition, kbsC1, kbP, List.find?]
  have hfQ : TriangulationManager.findBeaconPosition kbsC1 ['Q'] = some kbQ := by
    simp +decide [TriangulationManager.findBeaconPosition, kbsC1, kbP, kbQ, List.find?]
  have hfR : TriangulationManager.findBeaconPosition kbsC1 ['R'] = some kbR := by
    simp +decide [TriangulationManager.findBeaconPosition, kbsC1, kbP, kbQ, kbR, List.find?]
  have hfP2 : TriangulationManager.findBeaconPosition kbsC1 bP.name = some kbP := hfP
  have hfQ2 : TriangulationManager.findBeaconPosition kbsC1 bQ.name = some kbQ := hfQ
  have hfR2 : TriangulationManager.findBeaconPosition kbsC1 bR.name = some kbR := hfR
  have hrows : TriangulationManager.triangulationRows kbsC1 kbP bP [bQ, bR]
      = [(2, 0, 6), (4, 0, 12)] := by
    simp only [TriangulationManager.triangulationRows, List.filterMap_cons,
      List.filterMap_nil, hfQ, hfQ2, hfR, hfR2, Option.map_some',
      TriangulationManager.triangulationRow, kbP, kbQ, kbR, bP, bQ, bR]
    norm_num
  have hsolve : TriangulationManager.solveLeastSquares [((2 : ℝ), (0 : ℝ), (6 : ℝ)), (4, 0, 12)]
      = Position2D.default := by
    rw [TriangulationManager.solveLeastSquares]
    norm_num [TriangulationManager.normalDet, TriangulationManager.ata00,
      TriangulationManager.ata01, TriangulationManager.ata11]
  have hres : TriangulationManager.calculateResidualError kbsC1 Position2D.default [bP, bQ, bR]
      = 5 / 3 := by
    rw [TriangulationManager.calculateResidualError]
    simp only [List.filterMap_cons, List.filterMap_nil, hfP, hfP2, hfQ, hfQ2, hfR, hfR2,
      Option.map_some', Position2D.default, kbP, kbQ, kbR, bP, bQ, bR]
    norm_num [Real.sqrt_one, sqrt_four]
  have hmain : TriangulationManager.calculateLeastSquaresPosition kbsC1 [bP, bQ, bR]
      = ⟨0, 0, 3 / 8⟩ := by
    rw [TriangulationManager.calculateLeastSquaresPosition]
    simp only [List.length_cons, hfP, hfP2]
    rw [if_neg (by norm_num)]
    simp only [List.take, hrows]
    rw [if_neg (by norm_num), hsolve, hres]
    norm_num [Position2D.default]
  refine ⟨⟨?_, ?_, ?_⟩, ?_, ?_⟩
  · rw [show ((0 : ℝ) - 3) ^ 2 + ((0 : ℝ) - 0) ^ 2 = 9 by norm_num, sqrt_nine]
  · rw [show ((1 : ℝ) - 3) ^ 2 + ((0 : ℝ) - 0) ^ 2 = 4 by norm_num, sqrt_four]
  · rw [show ((2 : ℝ) - 3) ^ 2 + ((0 : ℝ) - 0) ^ 2 = 1 by norm_num, Real.sqrt_one]
  · rw [hmain]
    simp only [Position2D.distanceTo]
    rw [show ((0 : ℝ) - 3) * ((0 : ℝ) - 3) + ((0 : ℝ) - 0) * ((0 : ℝ) - 0) = 9 by norm_num,
      sqrt_nine]
    norm_num
  · rw [hmain]
    norm_num

/-- Claim C1 (amended): when three or more beacons with known coordinates
report distances computed exactly from a true position `(px, py)` and the
beacon geometry is non-degenerate (the 2×2 normal-equation determinant is at
least the code's `1e-6` singularity threshold in absolute value),
least-squares trilateration returns exactly `(px, py)` — in particular within
`0.01` units — with confidence exactly 1. -/
theorem C1_theorem (kbs : List BeaconPosition) (b0 : Beacon) (rest : List Beacon)
    (ref : BeaconPosition) (px py : ℝ)
    (hlen : 2 ≤ rest.length)
    (href : TriangulationManager.findBeaconPosition kbs b0.name = some ref)
    (hexact : ∀ b ∈ b0 :: rest, ∀ bp,
      TriangulationManager.findBeaconPosition kbs b.name = some bp →
      b.distance = Real.sqrt ((bp.x - px) ^ 2 + (bp.y - py) ^ 2))
    (hfound : ∀ b ∈ rest.take 5,
      (TriangulationManager.findBeaconPosition kbs b.name).isSome = true)
    (hdet : 1e-6 ≤ |TriangulationManager.normalDet
      (TriangulationManager.triangulationRows kbs ref b0 (rest.take 5))|) :
    TriangulationManager.calculateLeastSquaresPosition kbs (b0 :: rest) = ⟨px, py, 1⟩ ∧
    Position2D.distanceTo
      (TriangulationManager.calculateLeastSquaresPosition kbs (b0 :: rest)) ⟨px, py, 1⟩
      < 0.01 := by
  have hrows_exact : ∀ r ∈ TriangulationManager.triangulationRows kbs ref b0 (rest.take 5),
      TriangulationManager.rowExact px py r :=
    TriangulationManager.triangulationRows_exact kbs ref b0 (rest.take 5) px py
      (hexact b0 (List.mem_cons_self b0 rest) ref href)
      (fun b hb bp hbp =>
        hexact b (List.mem_cons_of_mem b0 (List.take_subset 5 rest hb)) bp hbp)
  have hrl : (TriangulationManager.triangulationRows kbs ref b0 (rest.take 5)).length
      = (rest.take 5).length :=
    TriangulationManager.triangulationRows_length kbs ref b0 (rest.take 5) hfound
  have h2 : 2 ≤ (TriangulationManager.triangulationRows kbs ref b0 (rest.take 5)).length := by
    rw [hrl, List.length_take]
    omega
  have hsolve : TriangulationManager.solveLeastSquares
      (TriangulationManager.triangulationRows kbs ref b0 (rest.take 5)) = ⟨px, py, 1⟩ :=
    TriangulationManager.solveLeastSquares_exact px py _ h2 hrows_exact hdet
  have hres : TriangulationManager.calculateResidualError kbs ⟨px, py, 1⟩ (b0 :: rest) = 0 :=
    TriangulationManager.calculateResidualError_exact kbs (b0 :: rest) px py 1 hexact
      ⟨b0, List.mem_cons_self b0 rest, by rw [href]; rfl⟩
  have hmain : TriangulationManager.calculateLeastSquaresPosition kbs (b0 :: rest)
      = ⟨px, py, 1⟩ := by
    rw [TriangulationManager.calculateLeastSquaresPosition]
    simp only [List.length_cons, href]
    rw [if_neg (by omega), if_neg (by omega)]
    rw [hsolve, hres]
    norm_num
  refine ⟨hmain, ?_⟩
  rw [hmain]
  simp [Position2D.distanceTo]
  norm_num

/-- Claim C1, witness: `C1_theorem` applied to beacons at `(0,0)`, `(4,0)`,
`(0,3)` with exact distances from the true position `(0,0)`. -/
theorem C1_witness :
    2 ≤ ([bV, bW] : List Beacon).length ∧
    TriangulationManager.calculateLeastSquaresPosition kbsW (bU :: [bV, bW]) = ⟨0, 0, 1⟩ ∧
    Position2D.distanceTo
      (TriangulationManager.calculateLeastSquaresPosition kbsW (bU :: [bV, bW])) ⟨0, 0, 1⟩
      < 0.01 := by
  have hfU : TriangulationManager.findBeaconPosition kbsW ['U'] = some kbU := by
    simp +decide [TriangulationManager.findBeaconPosition, kbsW, kbU, List.find?]
  have hfV : TriangulationManager.findBeaconPosition kbsW ['V'] = some kbV := by
    simp +decide [TriangulationManager.findBeaconPosition, kbsW, kbU, kbV, List.find?]
  have hfW : TriangulationManager.findBeaconPosition kbsW ['W'] = some kbW := by
    simp +decide [TriangulationManager.findBeaconPosition, kbsW, kbU, kbV, kbW, List.find?]
  have hfU2 : TriangulationManager.findBeaconPosition kbsW bU.name = some kbU := hfU
  have hfV2 : TriangulationManager.findBeaconPosition kbsW bV.name = some kbV := hfV
  have hfW2 : TriangulationManager.findBeaconPosition kbsW bW.name = some kbW := hfW
  have hexact : ∀ b ∈ bU :: [bV, bW], ∀ bp,
      TriangulationManager.findBeaconPosition kbsW b.name = some bp →
      b.distance = Real.sqrt ((bp.x - 0) ^ 2 + (bp.y - 0) ^ 2) := by
    intro b hb bp hbp
    fin_cases hb
    · have hbp2 : bp = kbU := by rw [hfU2] at hbp; exact (Option.some.inj hbp).symm
      subst hbp2
      norm_num [bU, kbU]
    · have hbp2 : bp = kbV := by rw [hfV2] at hbp; exact (Option.some.inj hbp).symm
      subst hbp2
      norm_num [bV, kbV, sqrt_sixteen]
    · have hbp2 : bp = kbW := by rw [hfW2] at hbp; exact (Option.some.inj hbp).symm
      subst hbp2
      norm_num [bW, kbW, sqrt_nine]
  have hfound : ∀ b ∈ ([bV, bW] : List Beacon).take 5,
      (TriangulationManager.findBeaconPosition kbsW b.name).isSome = true := by
    intro b hb
    fin_cases hb
    · rw [hfV2]; rfl
    · rw [hfW2]; rfl
  have hrowsW : TriangulationManager.triangulationRows kbsW kbU bU
      (([bV, bW] : List Beacon).take 5) = [(8, 0, 0), (0, 6, 0)] := by
    simp only [List.take, TriangulationManager.triangulationRows, List.filterMap_cons,
      List.filterMap_nil, hfV, hfV2, hfW, hfW2, Option.map_some',
      TriangulationManager.triangulationRow, kbU, kbV, kbW, bU, bV, bW]
    norm_num
  have hdet : 1e-6 ≤ |TriangulationManager.normalDet
      (TriangulationManager.triangulationRows kbsW kbU bU
        (([bV, bW] : List Beacon).take 5))| := by
    rw [hrowsW]
    norm_num [TriangulationManager.normalDet, TriangulationManager.ata00,
      TriangulationManager.ata01, TriangulationManager.ata11]
  have happ := C1_theorem kbsW bU [bV, bW] kbU 0 0 (by norm_num) hfU2 hexact hfound hdet
  exact ⟨by norm_num, happ.1, happ.2⟩

end PetCollar

namespace PetCollar

open TriangulationManager

/-- A position whose confidence is below the validity threshold fails
`Position2D::isValid`. -/
theorem isValid_eq_false_of_conf (p : Position2D) (h : p.confidence < 0.6) :
    p.isValid = false := by
  have hd : decide ((0.6 : ℝ) ≤ p.confidence) = false := decide_eq_false (not_le.mpr h)
  simp [Position2D.isValid, hd]

/-- Claim C2 (amended): when the 2×2 normal-equation determinant is below the
`1e-6` singularity threshold, `solveLeastSquares` detects it and returns the
default origin position with confidence 0; `calculateLeastSquaresPosition`
re-scores that default by residual error, and when the re-scored confidence is
below the `0.6` validity threshold the cycle produces no estimate —
`updatePosition` returns `false` leaving position and history unchanged. No
weighted-centroid fallback exists in `TriangulationManager`. -/
theorem C2_theorem (s : TMState) (beacons : List Beacon) (t : ℕ)
    (b0 : Beacon) (rest : List Beacon) (ref : BeaconPosition)
    (hinit : s.initialized = true)
    (hact : filterActiveBeacons s beacons = b0 :: rest)
    (hlen : 2 ≤ rest.length)
    (href : findBeaconPosition s.knownBeacons b0.name = some ref)
    (hfound : ∀ b ∈ rest.take 5,
      (findBeaconPosition s.knownBeacons b.name).isSome = true)
    (hdet : |normalDet (triangulationRows s.knownBeacons ref b0 (rest.take 5))| < 1e-6)
    (hconf : 1.0 / (1.0 + calculateResidualError s.knownBeacons Position2D.default
      (b0 :: rest)) < 0.6) :
    solveLeastSquares (triangulationRows s.knownBeacons ref b0 (rest.take 5))
      = Position2D.default ∧
    (updatePosition s beacons t).2 = false ∧
    (updatePosition s beacons t).1.currentPosition = s.currentPosition ∧
    (updatePosition s beacons t).1.positionHistory = s.positionHistory ∧
    (updatePosition s beacons t).1.positionValid = s.positionValid := by
  have hrl : (triangulationRows s.knownBeacons ref b0 (rest.take 5)).length
      = (rest.take 5).length :=
    triangulationRows_length s.knownBeacons ref b0 (rest.take 5) hfound
  have h2 : 2 ≤ (triangulationRows s.knownBeacons ref b0 (rest.take 5)).length := by
    rw [hrl, List.length_take]; omega
  have hsolve : solveLeastSquares (triangulationRows s.knownBeacons ref b0 (rest.take 5))
      = Position2D.default := by
    rw [solveLeastSquares, if_neg (by omega), if_pos hdet]
  have hcalc : calculateLeastSquaresPosition s.knownBeacons (b0 :: rest)
      = ⟨0, 0, 1.0 / (1.0 + calculateResidualError s.knownBeacons Position2D.default
          (b0 :: rest))⟩ := by
    rw [calculateLeastSquaresPosition]
    simp only [List.length_cons, href]
    rw [if_neg (by omega), if_neg (by omega), hsolve]
    rfl
  have hvalid : (calculateLeastSquaresPosition s.knownBeacons (b0 :: rest)).isValid
      = false := by
    rw [hcalc]
    exact isValid_eq_false_of_conf _ hconf
  refine ⟨hsolve, ?_, ?_, ?_, ?_⟩ <;>
  · rw [updatePosition]
    simp only [hinit, hact]
    rw [if_neg (by simp), if_neg (by simp only [List.length_cons]; omega),
      if_pos (Or.inl hvalid)]

/-- Claim C2, counterexample: with the collinear registry the determinant is
zero, i.e. below the `1e-6` threshold, and the estimation cycle simply
produces no estimate — `updatePosition` returns `false`, `positionValid_`
stays `false` and the current position stays at the default — instead of
falling back to a weighted-centroid method (which does not exist in
`TriangulationManager`). -/
theorem C2_counterexample :
    |normalDet (triangulationRows kbsC1 kbP bP2 [bQ2, bR2])| < 1e-6 ∧
    (updatePosition tmStateC2 bsC2 1000).2 = false ∧
    (updatePosition tmStateC2 bsC2 1000).1.positionValid = false ∧
    (updatePosition tmStateC2 bsC2 1000).1.currentPosition = Position2D.default := by
  have hfP : findBeaconPosition kbsC1 ['P'] = some kbP := by
    simp +decide [findBeaconPosition, kbsC1, kbP, List.find?]
  have hfQ : findBeaconPosition kbsC1 ['Q'] = some kbQ := by
    simp +decide [findBeaconPosition, kbsC1, kbP, kbQ, List.find?]
  have hfR : findBeaconPosition kbsC1 ['R'] = some kbR := by
    simp +decide [findBeaconPosition, kbsC1, kbP, kbQ, kbR, List.find?]
  have hdist : rssiToDistance tmStateC2 (-59) = 1.2 := by
    rw [rssiToDistance, if_neg (by norm_num)]
    norm_num [Real.rpow_zero, constrain, tmStateC2]
  have hact : filterActiveBeacons tmStateC2 bsC2 = [bP2, bQ2, bR2] := by
    simp only [filterActiveBeacons, bsC2, List.filterMap_cons, List.filterMap_nil]
    rw [if_pos ⟨by norm_num, by show (findBeaconPosition kbsC1 ['P']).isSome = true; rw [hfP]; rfl⟩,
        if_pos ⟨by norm_num, by show (findBeaconPosition kbsC1 ['Q']).isSome = true; rw [hfQ]; rfl⟩,
        if_pos ⟨by norm_num, by show (findBeaconPosition kbsC1 ['R']).isSome = true; rw [hfR]; rfl⟩]
    rw [show rssiToDistance tmStateC2 (-59 : ℤ) = 1.2 from hdist]
    rfl
  have hfP2 : findBeaconPosition kbsC1 bP2.name = some kbP := hfP
  have hfQ2 : findBeaconPosition kbsC1 bQ2.name = some kbQ := hfQ
  have hfR2 : findBeaconPosition kbsC1 bR2.name = some kbR := hfR
  have hrows : triangulationRows kbsC1 kbP bP2 [bQ2, bR2] = [(2, 0, 1), (4, 0, 4)] := by
    simp only [triangulationRows, List.filterMap_cons, List.filterMap_nil, hfQ, hfQ2,
      hfR, hfR2, Option.map_some', triangulationRow, kbP, kbQ, kbR, bP2, bQ2, bR2]
    norm_num
  have hsolve : solveLeastSquares [((2 : ℝ), (0 : ℝ), (1 : ℝ)), (4, 0, 4)]
      = Position2D.default := by
    rw [solveLeastSquares]
    norm_num [normalDet, ata00, ata01, ata11]
  have hres : calculateResidualError kbsC1 Position2D.default [bP2, bQ2, bR2] = 11 / 15 := by
    rw [calculateResidualError]
    simp only [List.filterMap_cons, List.filterMap_nil, hfP, hfP2, hfQ, hfQ2, hfR, hfR2,
      Option.map_some', Position2D.default, kbP, kbQ, kbR, bP2, bQ2, bR2]
    norm_num [Real.sqrt_one, sqrt_four, abs_of_nonneg]
  have hcalc : calculateLeastSquaresPosition kbsC1 [bP2, bQ2, bR2] = ⟨0, 0, 15 / 26⟩ := by
    rw [calculateLeastSquaresPosition]
    simp only [List.length_cons, hfP, hfP2]
    rw [if_neg (by norm_num)]
    simp only [List.take, hrows]
    rw [if_neg (by norm_num), hsolve, hres]
    norm_num [Position2D.default]
  have hvalid : (calculateLeastSquaresPosition kbsC1 [bP2, bQ2, bR2]).isValid = false := by
    rw [hcalc]
    exact isValid_eq_false_of_conf _ (by norm_num)
  have hvalid2 : (calculateLeastSquaresPosition tmStateC2.knownBeacons
      [bP2, bQ2, bR2]).isValid = false := hvalid
  refine ⟨by rw [hrows]; norm_num [normalDet, ata00, ata01, ata11], ?_, ?_, ?_⟩ <;>
  · rw [updatePosition]
    simp only [show tmStateC2.initialized = true from rfl, hact]
    rw [if_neg (by simp), if_neg (by norm_num), if_pos (Or.inl hvalid2)]
    try rfl

/-- Claim C2, witness: `C2_theorem` applied to the collinear three-beacon
cycle; the determinant is below threshold and the call yields no estimate. -/
theorem C2_witness :
    |normalDet (triangulationRows tmStateC2.knownBeacons kbP bP2
        (([bQ2, bR2] : List Beacon).take 5))| < 1e-6 ∧
    (solveLeastSquares (triangulationRows tmStateC2.knownBeacons kbP bP2
        (([bQ2, bR2] : List Beacon).take 5)) = Position2D.default ∧
     (updatePosition tmStateC2 bsC2 1000).2 = false ∧
     (updatePosition tmStateC2 bsC2 1000).1.currentPosition = tmStateC2.currentPosition ∧
     (updatePosition tmStateC2 bsC2 1000).1.positionHistory = tmStateC2.positionHistory ∧
     (updatePosition tmStateC2 bsC2 1000).1.positionValid = tmStateC2.positionValid) := by
  have hfP : findBeaconPosition kbsC1 ['P'] = some kbP := by
    simp +decide [findBeaconPosition, kbsC1, kbP, List.find?]
  have hfQ : findBeaconPosition kbsC1 ['Q'] = some kbQ := by
    simp +decide [findBeaconPosition, kbsC1, kbP, kbQ, List.find?]
  have hfR : findBeaconPosition kbsC1 ['R'] = some kbR := by
    simp +decide [findBeaconPosition, kbsC1, kbP, kbQ, kbR, List.find?]
  have hdist : rssiToDistance tmStateC2 (-59) = 1.2 := by
    rw [rssiToDistance, if_neg (by norm_num)]
    norm_num [Real.rpow_zero, constrain, tmStateC2]
  have hact : filterActiveBeacons tmStateC2 bsC2 = bP2 :: [bQ2, bR2] := by
    simp only [filterActiveBeacons, bsC2, List.filterMap_cons, List.filterMap_nil]
    rw [if_pos ⟨by norm_num, by show (findBeaconPosition kbsC1 ['P']).isSome = true; rw [hfP]; rfl⟩,
        if_pos ⟨by norm_num, by show (findBeaconPosition kbsC1 ['Q']).isSome = true; rw [hfQ]; rfl⟩,
        if_pos ⟨by norm_num, by show (findBeaconPosition kbsC1 ['R']).isSome = true; rw [hfR]; rfl⟩]
    rw [show rssiToDistance tmStateC2 (-59 : ℤ) = 1.2 from hdist]
    rfl
  have hfP2 : findBeaconPosition kbsC1 bP2.name = some kbP := hfP
  have hfQ2 : findBeaconPosition kbsC1 bQ2.name = some kbQ := hfQ
  have hfR2 : findBeaconPosition kbsC1 bR2.name = some kbR := hfR
  have hrows : triangulationRows kbsC1 kbP bP2 [bQ2, bR2] = [(2, 0, 1), (4, 0, 4)] := by
    simp only [triangulationRows, List.filterMap_cons, List.filterMap_nil, hfQ, hfQ2,
      hfR, hfR2, Option.map_some', triangulationRow, kbP, kbQ, kbR, bP2, bQ2, bR2]
    norm_num
  have hres : calculateResidualError kbsC1 Position2D.default [bP2, bQ2, bR2] = 11 / 15 := by
    rw [calculateResidualError]
    simp only [List.filterMap_cons, List.filterMap_nil, hfP, hfP2, hfQ, hfQ2, hfR, hfR2,
      Option.map_some', Position2D.default, kbP, kbQ, kbR, bP2, bQ2, bR2]
    norm_num [Real.sqrt_one, sqrt_four, abs_of_nonneg]
  have hrowsK : triangulationRows tmStateC2.knownBeacons kbP bP2
      (([bQ2, bR2] : List Beacon).take 5) = [(2, 0, 1), (4, 0, 4)] := hrows
  have hdet : |normalDet (triangulationRows tmStateC2.knownBeacons kbP bP2
      (([bQ2, bR2] : List Beacon).take 5))| < 1e-6 := by
    rw [hrowsK]
    norm_num [normalDet, ata00, ata01, ata11]
  have hfound : ∀ b ∈ ([bQ2, bR2] : List Beacon).take 5,
      (findBeaconPosition tmStateC2.knownBeacons b.name).isSome = true := by
    intro b hb
    fin_cases hb
    · show (findBeaconPosition kbsC1 bQ2.name).isSome = true
      rw [hfQ2]; rfl
    · show (findBeaconPosition kbsC1 bR2.name).isSome = true
      rw [hfR2]; rfl
  have href : findBeaconPosition tmStateC2.knownBeacons bP2.name = some kbP := hfP
  have hconf : 1.0 / (1.0 + calculateResidualError tmStateC2.knownBeacons
      Position2D.default (bP2 :: [bQ2, bR2])) < 0.6 := by
    rw [show calculateResidualError tmStateC2.knownBeacons Position2D.default
      (bP2 :: [bQ2, bR2]) = 11 / 15 from hres]
    norm_num
  exact ⟨hdet, C2_theorem tmStateC2 bsC2 1000 bP2 [bQ2, bR2] kbP rfl hact (by norm_num)
    href hfound hdet hconf⟩

/-- Real part of `toC`. -/
theorem toC_re (p : Position2D) : (toC p).re = p.x := rfl

/-- Imaginary part of `toC`. -/
theorem toC_im (p : Position2D) : (toC p).im = p.y := rfl

/-- `Position2D::distanceTo` is the complex modulus of the difference. -/
theorem distanceTo_eq_abs (p q : Position2D) :
    Position2D.distanceTo p q = Complex.abs (toC p - toC q) := by
  rw [Position2D.distanceTo, Complex.abs_apply, Complex.normSq_apply]
  simp only [Complex.sub_re, Complex.sub_im, toC_re, toC_im]

/-- Triangle inequality for a list sum of complex numbers. -/
theorem abs_list_sum_le (l : List ℂ) :
    Complex.abs l.sum ≤ (l.map Complex.abs).sum := by
  induction l with
  | nil => simp
  | cons a l ih =>
    simp only [List.sum_cons, List.map_cons]
    exact le_trans (Complex.abs.add_le a l.sum) (by linarith)

/-- Summing `w - f q` over a list telescopes. -/
theorem list_sum_sub_map {α : Type} (w : ℂ) (f : α → ℂ) (l : List α) :
    (l.map (fun q => w - f q)).sum = (l.length : ℂ) * w - (l.map f).sum := by
  induction l with
  | nil => simp
  | cons a l ih =>
    simp only [List.map_cons, List.sum_cons, ih, List.length_cons]
    push_cast
    ring

/-- Real part commutes with list sums. -/
theorem re_list_sum {α : Type} (f : α → ℂ) (l : List α) :
    (l.map f).sum.re = (l.map (fun q => (f q).re)).sum := by
  induction l with
  | nil => simp
  | cons a l ih => simp [ih]

/-- Imaginary part commutes with list sums. -/
theorem im_list_sum {α : Type} (f : α → ℂ) (l : List α) :
    (l.map f).sum.im = (l.map (fun q => (f q).im)).sum := by
  induction l with
  | nil => simp
  | cons a l ih => simp [ih]

/-- Convexity: the mean of the distances to a list of positions dominates
the distance to their mean. -/
theorem dist_centroidOf_le (p : Position2D) (l : List Position2D) (hne : l ≠ []) :
    Position2D.distanceTo p (centroidOf l)
      ≤ (l.map (fun q => Position2D.distanceTo p q)).sum / l.length := by
  have hn : 0 < l.length := List.length_pos.mpr hne
  have hnR : (0 : ℝ) < (l.length : ℝ) := by exact_mod_cast hn
  have hmul : (l.length : ℂ) * toC (centroidOf l) = (l.map toC).sum := by
    apply Complex.ext
    · simp only [Complex.mul_re, Complex.natCast_re, Complex.natCast_im, toC_re, toC_im,
        re_list_sum, centroidOf]
      field_simp
    · simp only [Complex.mul_im, Complex.natCast_re, Complex.natCast_im, toC_re, toC_im,
        im_list_sum, centroidOf]
      field_simp
  have hsum : ((l.length : ℂ)) * (toC p - toC (centroidOf l))
      = (l.map (fun q => toC p - toC q)).sum := by
    rw [mul_sub, hmul, list_sum_sub_map]
  have habs : (l.length : ℝ) * Complex.abs (toC p - toC (centroidOf l))
      = Complex.abs ((l.map (fun q => toC p - toC q)).sum) := by
    rw [← hsum, map_mul, Complex.abs_natCast]
  have hle := abs_list_sum_le (l.map (fun q => toC p - toC q))
  rw [List.map_map] at hle
  have hmaps : (l.map (Complex.abs ∘ fun q => toC p - toC q))
      = l.map (fun q => Position2D.distanceTo p q) := by
    apply List.map_congr_left
    intro q hq
    simp [Function.comp, distanceTo_eq_abs]
  rw [hmaps] at hle
  rw [distanceTo_eq_abs]
  rw [le_div_iff₀ hnR, mul_comm]
  rw [habs]
  exact hle

/-- Claim C8: a new estimate whose distance from the running average of the
recent position history exceeds the 10-unit outlier threshold is rejected:
`updatePosition` returns `false` and neither the current position, nor the
bounded history, nor the last valid (externally visible) position moves. -/
theorem C8_theorem (s : TMState) (beacons : List Beacon) (t : ℕ)
    (hdetect : s.enableOutlierDetection = true)
    (hne : s.positionHistory ≠ [])
    (hfar : 10 < Position2D.distanceTo
      (calculateLeastSquaresPosition s.knownBeacons (filterActiveBeacons s beacons))
      (centroidOf (recentPositions s.positionHistory))) :
    (updatePosition s beacons t).2 = false ∧
    (updatePosition s beacons t).1.currentPosition = s.currentPosition ∧
    (updatePosition s beacons t).1.positionHistory = s.positionHistory ∧
    (updatePosition s beacons t).1.lastValidPosition = s.lastValidPosition := by
  have hlen1 : 1 ≤ s.positionHistory.length := List.length_pos.mpr hne
  have hreclen : (recentPositions s.positionHistory).length
      = min 5 s.positionHistory.length := by
    simp only [recentPositions, List.length_drop]
    omega
  have hrecne : recentPositions s.positionHistory ≠ [] := by
    refine List.ne_nil_of_length_pos ?_
    rw [hreclen]
    omega
  have hchain := dist_centroidOf_le
    (calculateLeastSquaresPosition s.knownBeacons (filterActiveBeacons s beacons))
    (recentPositions s.positionHistory) hrecne
  rw [hreclen] at hchain
  have havg : ((recentPositions s.positionHistory).map
      (fun q => Position2D.distanceTo
        (calculateLeastSquaresPosition s.knownBeacons (filterActiveBeacons s beacons)) q)).sum
      / ((min 5 s.positionHistory.length : ℕ) : ℝ) > 10.0 := by
    rw [show (10.0 : ℝ) = 10 by norm_num]
    exact lt_of_lt_of_le hfar hchain
  have houtlier : isPositionOutlier { s with activeBeacons := filterActiveBeacons s beacons }
      (calculateLeastSquaresPosition s.knownBeacons (filterActiveBeacons s beacons))
      = true := by
    rw [isPositionOutlier]
    rw [if_neg]
    · exact decide_eq_true havg
    · rw [not_or]
      constructor
      · simp [hdetect]
      · simp [List.isEmpty_iff, hne]
  rw [updatePosition]
  by_cases hinit : s.initialized = false
  · rw [if_pos hinit]
    exact ⟨rfl, rfl, rfl, rfl⟩
  · rw [if_neg hinit]
    by_cases h3 : (filterActiveBeacons s beacons).length < 3
    · rw [if_pos h3]
      exact ⟨rfl, rfl, rfl, rfl⟩
    · rw [if_neg h3, if_pos (Or.inr houtlier)]
      exact ⟨rfl, rfl, rfl, rfl⟩

/-- `Real.sqrt 400 = 20`. -/
theorem sqrt_four_hundred : Real.sqrt 400 = 20 := by
  rw [show (400 : ℝ) = 20 ^ 2 by norm_num, Real.sqrt_sq (by norm_num)]

/-- Claim C8, witness: `C8_theorem` applied to a cycle whose new estimate is
20 units from the recent average. -/
theorem C8_witness :
    tmStateC8.enableOutlierDetection = true ∧
    tmStateC8.positionHistory ≠ [] ∧
    (10 < Position2D.distanceTo
      (calculateLeastSquaresPosition tmStateC8.knownBeacons
        (filterActiveBeacons tmStateC8 []))
      (centroidOf (recentPositions tmStateC8.positionHistory))) ∧
    ((updatePosition tmStateC8 [] 1000).2 = false ∧
     (updatePosition tmStateC8 [] 1000).1.currentPosition = tmStateC8.currentPosition ∧
     (updatePosition tmStateC8 [] 1000).1.positionHistory = tmStateC8.positionHistory ∧
     (updatePosition tmStateC8 [] 1000).1.lastValidPosition
       = tmStateC8.lastValidPosition) := by
  have hfilter : filterActiveBeacons tmStateC8 [] = [] := by
    simp [filterActiveBeacons]
  have hcalc : calculateLeastSquaresPosition tmStateC8.knownBeacons []
      = Position2D.default := by
    rw [calculateLeastSquaresPosition, if_pos (by norm_num)]
  have hrec : recentPositions tmStateC8.positionHistory = [⟨20, 0, 1⟩] := by
    simp [recentPositions, tmStateC8]
  have hcent : centroidOf [(⟨20, 0, 1⟩ : Position2D)] = ⟨20, 0, 0⟩ := by
    simp only [centroidOf, List.map_cons, List.map_nil, List.sum_cons, List.sum_nil,
      List.length_cons, List.length_nil]
    norm_num
  have hfar : 10 < Position2D.distanceTo
      (calculateLeastSquaresPosition tmStateC8.knownBeacons
        (filterActiveBeacons tmStateC8 []))
      (centroidOf (recentPositions tmStateC8.positionHistory)) := by
    rw [hfilter, hcalc, hrec, hcent]
    rw [Position2D.distanceTo]
    simp only [Position2D.default]
    rw [show ((0 : ℝ) - 20) * ((0 : ℝ) - 20) + ((0 : ℝ) - 0) * ((0 : ℝ) - 0) = 400 by norm_num,
      sqrt_four_hundred]
    norm_num
  exact ⟨rfl, by simp [tmStateC8], hfar,
    C8_theorem tmStateC8 [] 1000 rfl (by simp [tmStateC8]) hfar⟩

/-- Clamping a negative value to zero is a `max`. -/
theorem if_lt_zero_eq_max (x : ℝ) : (if x < 0 then (0.0 : ℝ) else x) = max 0 x := by
  rcases le_or_lt 0 x with h | h
  · rw [if_neg (not_lt.mpr h), max_eq_right h]
  · rw [if_pos h, max_eq_left h.le]
    norm_num

/-- `constrain` on a nonnegative value is a `min` with the upper bound. -/
theorem constrainR_nonneg_eq_min (z hi : ℝ) (hz : 0 ≤ z) :
    constrainR z 0.0 hi = min hi z := by
  rw [constrainR, if_neg (by norm_num; exact hz)]
  rcases le_or_lt z hi with h | h
  · rw [if_neg (not_lt.mpr h), min_eq_right h]
  · rw [if_pos h, min_eq_left h.le]

/-- Claim C7: for every negative rssi, the distance estimate equals the
log-distance model `10^((−65 − rssi)/18)` with the fixed 1 cm contact offset
subtracted, clamped below at 0 and above at the 500 cm maximum range; the
result always lies in `[0, 500]`, and any rssi at or above the contact level
`−29` dBm reads exactly 0. -/
theorem C7_theorem (rssi : ℤ) (h : rssi < 0) :
    calculateDistance rssi
      = min 500 (100 * max 0 ((10 : ℝ) ^ (((-65 : ℝ) - (rssi : ℝ)) / 18) - 0.01)) ∧
    0 ≤ calculateDistance rssi ∧
    calculateDistance rssi ≤ 500 ∧
    (-29 ≤ rssi → calculateDistance rssi = 0) := by
  have hform : calculateDistance rssi
      = min 500 (100 * max 0 ((10 : ℝ) ^ (((-65 : ℝ) - (rssi : ℝ)) / 18) - 0.01)) := by
    rw [calculateDistance, if_neg (by omega)]
    simp only [show (10.0 : ℝ) * 1.8 = 18 by norm_num, show (-65.0 : ℝ) = -65 by norm_num,
      show (10.0 : ℝ) = 10 by norm_num, if_lt_zero_eq_max]
    rw [constrainR_nonneg_eq_min _ _ (by positivity)]
    rw [show (500.0 : ℝ) = 500 by norm_num]
    rw [mul_comm (max 0 _) 100.0, show (100.0 : ℝ) = 100 by norm_num]
    norm_num
  refine ⟨hform, ?_, ?_, ?_⟩
  · rw [hform]
    refine le_min (by norm_num) ?_
    positivity
  · rw [hform]
    exact min_le_left _ _
  · intro h29
    rw [hform]
    have hcast : (-29 : ℝ) ≤ (rssi : ℝ) := by exact_mod_cast h29
    have hexp : ((-65 : ℝ) - (rssi : ℝ)) / 18 ≤ -2 := by
      rw [div_le_iff₀ (by norm_num)]
      linarith
    have hmono : (10 : ℝ) ^ (((-65 : ℝ) - (rssi : ℝ)) / 18) ≤ (10 : ℝ) ^ (-2 : ℝ) := by
      exact (Real.rpow_le_rpow_left_iff (by norm_num)).mpr hexp
    have hval : (10 : ℝ) ^ (-2 : ℝ) = 0.01 := by
      rw [show (-2 : ℝ) = ((-2 : ℤ) : ℝ) by norm_num, Real.rpow_intCast]
      norm_num
    have hle : (10 : ℝ) ^ (((-65 : ℝ) - (rssi : ℝ)) / 18) - 0.01 ≤ 0 := by
      rw [hval] at hmono
      linarith
    rw [max_eq_left hle]
    norm_num

/-- Claim C7, witness: `C7_theorem` applied at the physical-contact rssi
`−29` dBm, which reads distance 0. -/
theorem C7_witness :
    (-29 : ℤ) < 0 ∧
    0 ≤ calculateDistance (-29) ∧
    calculateDistance (-29) ≤ 500 ∧
    calculateDistance (-29) = 0 :=
  ⟨by norm_num,
   (C7_theorem (-29) (by norm_num)).2.1,
   (C7_theorem (-29) (by norm_num)).2.2.1,
   (C7_theorem (-29) (by norm_num)).2.2.2 (by norm_num)⟩

/-- Claim C10: for every point and time, a zone whose `active` flag is false
or whose schedule is currently inactive contains no position — regardless of
its shape or geometry. -/
theorem C10_theorem (zone : ZoneR) (point : ℝ × ℝ) (t : ℕ)
    (h : zone.active = false ∨ zone.schedule.isActiveAt t = false) :
    zone.containsPoint point t = false := by
  rw [ZoneR.containsPoint, if_pos h]

/-- Claim C10, witness: `C10_theorem` applied to a deactivated zone and to a
schedule-inactive zone, both containing their own center point's query. -/
theorem C10_witness :
    (zoneC10a.active = false ∨ zoneC10a.schedule.isActiveAt 0 = false) ∧
    zoneC10a.containsPoint (0, 0) 0 = false ∧
    (zoneC10b.active = false ∨ zoneC10b.schedule.isActiveAt 0 = false) ∧
    zoneC10b.containsPoint (0, 0) 0 = false := by
  have hb : zoneC10b.schedule.isActiveAt 0 = false := by
    rw [ZoneSchedule.isActiveAt]
    simp [zoneC10b, Nat.zero_testBit]
  exact ⟨Or.inl rfl, C10_theorem zoneC10a (0, 0) 0 (Or.inl rfl),
    Or.inr hb, C10_theorem zoneC10b (0, 0) 0 (Or.inr hb)⟩

/-! ## Claim C6 -/

/-- Claim C6, counterexample: the claim states that observing a beacon named
`"Zone-Home-01"` yields location `"Home"` and id `"01"`; in fact
`extractLocation` requires the `"PetZone-"` prefix and returns `"Unknown"`
for this name. -/
theorem C6_counterexample :
    ¬ (extractLocation "Zone-Home-01".toList = "Home".toList ∧
       extractBeaconId "Zone-Home-01".toList = "01".toList) := by
  decide

/-- Claim C6 (amended): when the registry observes a beacon named
`"Zone-Home-01"`, name parsing yields location `"Unknown"` (the name lacks
the required `"PetZone-"` prefix) and beacon id `"01"`. -/
theorem C6_theorem :
    extractLocation "Zone-Home-01".toList = "Unknown".toList ∧
    extractBeaconId "Zone-Home-01".toList = "01".toList := by
  decide

theorem crs_self_left (a b : ℚ × ℚ) : crs a b a = 0 := by
  rw [crs]; ring

theorem crs_self_right (a b : ℚ × ℚ) : crs a b b = 0 := by
  rw [crs]; ring

/-- `crs a b` is affine in its point argument. -/
theorem crs_affine (a b u v : ℚ × ℚ) (t : ℚ) :
    crs a b (u.1 + t * (v.1 - u.1), u.2 + t * (v.2 - u.2))
      = (1 - t) * crs a b u + t * crs a b v := by
  simp only [crs]
  ring

/-- On an upward edge, `p` strictly left iff the intersection is right of
`p.1`. -/
theorem crs_pos_iff_up (a b : ℚ × ℚ) (x0 py : ℚ) (hy : a.2 < b.2) :
    0 < crs a b (x0, py) ↔ x0 < intersectX a b py := by
  have hd : 0 < b.2 - a.2 := by linarith
  have hne : b.2 - a.2 ≠ 0 := ne_of_gt hd
  rw [crs, intersectX]
  rw [show a.1 + (py - a.2) * (b.1 - a.1) / (b.2 - a.2)
      = ((py - a.2) * (b.1 - a.1) + a.1 * (b.2 - a.2)) / (b.2 - a.2) by
    field_simp
    ring]
  rw [lt_div_iff₀ hd]
  constructor <;> intro h <;> nlinarith

/-- On a downward edge, `p` strictly left iff the intersection is left of
`p.1`. -/
theorem crs_pos_iff_down (a b : ℚ × ℚ) (x0 py : ℚ) (hy : b.2 < a.2) :
    0 < crs a b (x0, py) ↔ intersectX a b py < x0 := by
  have hd : b.2 - a.2 < 0 := by linarith
  have hne : b.2 - a.2 ≠ 0 := ne_of_lt hd
  rw [crs, intersectX]
  rw [show a.1 + (py - a.2) * (b.1 - a.1) / (b.2 - a.2)
      = ((py - a.2) * (b.1 - a.1) + a.1 * (b.2 - a.2)) / (b.2 - a.2) by
    field_simp
    ring]
  rw [div_lt_iff_of_neg hd]
  constructor <;> intro h <;> nlinarith

/-- For a point strictly left of the edge, the ray test fires exactly on
upward crossings `a.2 ≤ py < b.2`. -/
theorem rayIntersects_eq_up (a b : ℚ × ℚ) (px py : ℚ)
    (hleft : 0 < crs a b (px, py)) :
    rayIntersectsSegment px py a.1 a.2 b.1 b.2 = decide (a.2 ≤ py ∧ py < b.2) := by
  rcases lt_trichotomy a.2 b.2 with hy | hy | hy
  · -- upward edge
    rw [rayIntersectsSegment, if_neg (by intro h; rw [h] at hy; exact lt_irrefl _ hy)]
    simp only [gt_iff_lt]
    rw [show a.1 + (py - a.2) * (b.1 - a.1) / (b.2 - a.2) = intersectX a b py from rfl]
    by_cases hin : a.2 ≤ py ∧ py < b.2
    · rw [if_neg]
      · rw [decide_eq_true ((crs_pos_iff_up a b px py hy).mp hleft),
          decide_eq_true hin]
      · rw [min_eq_left hy.le, max_eq_right hy.le]
        push_neg
        exact hin
    · rw [if_pos, decide_eq_false hin]
      rw [min_eq_left hy.le, max_eq_right hy.le]
      rcases not_and_or.mp hin with h | h
      · exact Or.inl (not_le.mp h)
      · exact Or.inr (not_lt.mp h)
  · -- horizontal edge
    rw [rayIntersectsSegment, if_pos hy]
    have : ¬ (a.2 ≤ py ∧ py < b.2) := by
      rw [← hy]
      intro h
      exact absurd h.1 (not_le.mpr h.2)
    rw [decide_eq_false this]
  · -- downward edge
    rw [rayIntersectsSegment, if_neg (by intro h; rw [h] at hy; exact lt_irrefl _ hy)]
    have hrhs : ¬ (a.2 ≤ py ∧ py < b.2) := by
      intro h
      linarith [h.1, h.2]
    rw [decide_eq_false hrhs]
    simp only [gt_iff_lt]
    rw [show a.1 + (py - a.2) * (b.1 - a.1) / (b.2 - a.2) = intersectX a b py from rfl]
    by_cases hin : b.2 ≤ py ∧ py < a.2
    · rw [if_neg]
      · rw [decide_eq_false (not_lt.mpr ((crs_pos_iff_down a b px py hy).mp hleft).le)]
      · rw [min_eq_right hy.le, max_eq_left hy.le]
        push_neg
        exact hin
    · rw [if_pos]
      rw [min_eq_right hy.le, max_eq_left hy.le]
      rcases not_and_or.mp hin with h | h
      · exact Or.inl (not_le.mp h)
      · exact Or.inr (not_lt.mp h)

theorem countP_range_eq_card (n : ℕ) (p : ℕ → Bool) :
    (List.range n).countP p = ((Finset.range n).filter (fun i => p i = true)).card := by
  induction n with
  | zero => simp
  | succ n ih =>
    rw [List.range_succ, List.countP_append, ih, Finset.range_succ, Finset.filter_insert]
    by_cases h : p n = true
    · rw [if_pos h, Finset.card_insert_of_not_mem
        (fun hmem => absurd (Finset.mem_range.mp (Finset.mem_of_mem_filter n hmem))
          (lt_irrefl n))]
      simp [List.countP_cons, h]
    · rw [if_neg h]
      simp [List.countP_cons, h]

theorem card_filter_bool_eq_one (n : ℕ) (p : ℕ → Bool) (i0 : ℕ)
    (hi0 : i0 < n) (hp : p i0 = true)
    (huniq : ∀ i < n, p i = true → i = i0) :
    ((Finset.range n).filter (fun i => p i = true)).card = 1 := by
  rw [Finset.card_eq_one]
  refine ⟨i0, ?_⟩
  ext j
  simp only [Finset.mem_filter, Finset.mem_range, Finset.mem_singleton]
  constructor
  · rintro ⟨hj, hPj⟩
    exact huniq j hj hPj
  · rintro rfl
    exact ⟨hi0, hp⟩

theorem succ_mod_inv1 (n i : ℕ) (hn : 0 < n) (hi : i < n) :
    ((i + 1) % n + (n - 1)) % n = i := by
  rcases Nat.lt_or_ge (i + 1) n with h | h
  · rw [Nat.mod_eq_of_lt h]
    have : i + 1 + (n - 1) = i + n := by omega
    rw [this, Nat.add_mod_right, Nat.mod_eq_of_lt hi]
  · have hin : i + 1 = n := by omega
    rw [hin, Nat.mod_self, Nat.zero_add, Nat.mod_eq_of_lt (by omega)]
    omega

theorem succ_mod_inv2 (n j : ℕ) (hn : 0 < n) (hj : j < n) :
    ((j + (n - 1)) % n + 1) % n = j := by
  rw [Nat.mod_add_mod]
  have : j + (n - 1) + 1 = j + n := by omega
  rw [this, Nat.add_mod_right, Nat.mod_eq_of_lt hj]

theorem sum_range_succ_mod (n : ℕ) (hn : 0 < n) (g : ℕ → ℤ) :
    ∑ i ∈ Finset.range n, g ((i + 1) % n) = ∑ i ∈ Finset.range n, g i := by
  refine Finset.sum_nbij' (fun i => (i + 1) % n) (fun j => (j + (n - 1)) % n)
    ?_ ?_ ?_ ?_ ?_
  · intro a ha
    exact Finset.mem_range.mpr (Nat.mod_lt _ hn)
  · intro b hb
    exact Finset.mem_range.mpr (Nat.mod_lt _ hn)
  · intro a ha
    exact succ_mod_inv1 n a hn (Finset.mem_range.mp ha)
  · intro b hb
    exact succ_mod_inv2 n b hn (Finset.mem_range.mp hb)
  · intro a ha
    rfl

theorem card_up_eq_card_down (n : ℕ) (hn : 0 < n) (f : ℕ → Bool) :
    ((Finset.range n).filter
      (fun i => f i = true ∧ f ((i + 1) % n) = false)).card
      = ((Finset.range n).filter
        (fun i => f i = false ∧ f ((i + 1) % n) = true)).card := by
  classical
  have hperm := sum_range_succ_mod n hn (fun i => if f i = true then (1 : ℤ) else 0)
  simp only [] at hperm
  have hkey : ∀ i ∈ Finset.range n,
      ((if f i = true ∧ f ((i + 1) % n) = false then (1 : ℤ) else 0)
        - (if f i = false ∧ f ((i + 1) % n) = true then (1 : ℤ) else 0))
      = (if f i = true then (1 : ℤ) else 0)
        - (if f ((i + 1) % n) = true then (1 : ℤ) else 0) := by
    intro i _
    cases h1 : f i <;> cases h2 : f ((i + 1) % n) <;> simp [h1, h2]
  have hsum := Finset.sum_congr rfl hkey
  rw [Finset.sum_sub_distrib, Finset.sum_sub_distrib, hperm, sub_self] at hsum
  have hup : ((((Finset.range n).filter
      (fun i => f i = true ∧ f ((i + 1) % n) = false)).card : ℤ))
      = ∑ i ∈ Finset.range n,
        (if f i = true ∧ f ((i + 1) % n) = false then (1 : ℤ) else 0) := by
    rw [Finset.card_filter]
    push_cast
    rfl
  have hdown : ((((Finset.range n).filter
      (fun i => f i = false ∧ f ((i + 1) % n) = true)).card : ℤ))
      = ∑ i ∈ Finset.range n,
        (if f i = false ∧ f ((i + 1) % n) = true then (1 : ℤ) else 0) := by
    rw [Finset.card_filter]
    push_cast
    rfl
  have hfin : ((((Finset.range n).filter
      (fun i => f i = true ∧ f ((i + 1) % n) = false)).card : ℤ))
      = (((Finset.range n).filter
        (fun i => f i = false ∧ f ((i + 1) % n) = true)).card : ℤ) := by
    rw [hup, hdown]
    linarith [hsum]
  exact_mod_cast hfin

theorem succ_mod_inj (n i j : ℕ) (hi : i < n) (hj : j < n)
    (h : (i + 1) % n = (j + 1) % n) : i = j := by
  rcases Nat.lt_or_ge (i + 1) n with h1 | h1 <;> rcases Nat.lt_or_ge (j + 1) n with h2 | h2
  · rw [Nat.mod_eq_of_lt h1, Nat.mod_eq_of_lt h2] at h
    omega
  · have hj1 : j + 1 = n := by omega
    rw [Nat.mod_eq_of_lt h1, hj1, Nat.mod_self] at h
    omega
  · have hi1 : i + 1 = n := by omega
    rw [hi1, Nat.mod_self, Nat.mod_eq_of_lt h2] at h
    omega
  · omega

theorem cyclic_exists_transition (n : ℕ) (f : ℕ → Bool) (i0 j0 : ℕ)
    (hi0 : i0 < n) (hj0 : j0 < n) (ht : f i0 = true) (hf : f j0 = false) :
    ∃ i < n, f i = true ∧ f ((i + 1) % n) = false := by
  have hn : 0 < n := lt_of_le_of_lt (Nat.zero_le _) hi0
  have hex : ∃ k, f ((i0 + k) % n) = false := by
    refine ⟨j0 + n - i0, ?_⟩
    have h : i0 + (j0 + n - i0) = j0 + n := by omega
    rw [h, Nat.add_mod_right, Nat.mod_eq_of_lt hj0]
    exact hf
  have hkpos : 0 < Nat.find hex := by
    rcases Nat.eq_zero_or_pos (Nat.find hex) with h0 | h
    · exfalso
      have hspec := Nat.find_spec hex
      rw [h0, Nat.add_zero, Nat.mod_eq_of_lt hi0, ht] at hspec
      exact Bool.noConfusion hspec
    · exact h
  refine ⟨(i0 + (Nat.find hex - 1)) % n, Nat.mod_lt _ hn, ?_, ?_⟩
  · have hlt : Nat.find hex - 1 < Nat.find hex := by omega
    cases hb : f ((i0 + (Nat.find hex - 1)) % n) with
    | false => exact absurd hb (Nat.find_min hex hlt)
    | true => rfl
  · rw [Nat.mod_add_mod]
    have h : i0 + (Nat.find hex - 1) + 1 = i0 + Nat.find hex := by omega
    rw [h]
    exact Nat.find_spec hex

theorem map_sum_eq (vs : List (ℚ × ℚ)) (g : ℚ × ℚ → ℚ) :
    (vs.map g).sum = ∑ j ∈ Finset.range vs.length, g (vtx vs j) := by
  induction vs with
  | nil => simp
  | cons v rest ih =>
    rw [List.map_cons, List.sum_cons, List.length_cons, Finset.sum_range_succ']
    simp only [vtx, List.getD_cons_succ, List.getD_cons_zero]
    rw [ih]
    simp only [vtx]
    ring

theorem crs_centroid (a b : ℚ × ℚ) (vs : List (ℚ × ℚ)) (hn : vs.length ≠ 0) :
    crs a b (vertexCentroid vs)
      = (∑ j ∈ Finset.range vs.length, crs a b (vtx vs j)) / vs.length := by
  have hsx := map_sum_eq vs Prod.fst
  have hsy := map_sum_eq vs Prod.snd
  have hnq : (vs.length : ℚ) ≠ 0 := Nat.cast_ne_zero.mpr hn
  rw [vertexCentroid, crs]
  simp only [crs]
  rw [Finset.sum_sub_distrib, ← Finset.mul_sum, ← Finset.mul_sum,
    Finset.sum_sub_distrib, Finset.sum_sub_distrib, Finset.sum_const,
    Finset.card_range, ← hsx, ← hsy]
  field_simp

theorem centroid_left (vs : List (ℚ × ℚ)) (hn : 3 ≤ vs.length)
    (hconv : StrictlyConvex vs) (i : ℕ) (hi : i < vs.length) :
    0 < crs (vtx vs i) (vtx vs ((i + 1) % vs.length)) (vertexCentroid vs) := by
  have hn0 : vs.length ≠ 0 := by omega
  have hnpos : 0 < vs.length := by omega
  rw [crs_centroid _ _ _ hn0]
  apply div_pos ?_ (by exact_mod_cast hnpos)
  apply Finset.sum_pos'
  · intro j hj
    rcases eq_or_ne j i with rfl | hji
    · rw [crs_self_left]
    · rcases eq_or_ne j ((i + 1) % vs.length) with rfl | hjs
      · rw [crs_self_right]
      · exact le_of_lt (hconv i hi j (Finset.mem_range.mp hj) hji hjs)
  · refine ⟨(i + 2) % vs.length, Finset.mem_range.mpr (Nat.mod_lt _ hnpos), ?_⟩
    have hne1 : (i + 2) % vs.length ≠ i := by
      intro h
    -- i + 2 ≡ i [MOD n] forces n ∣ 2, impossible for n ≥ 3
      have hmod : i % vs.length = i := Nat.mod_eq_of_lt hi
      have heq : (i + 2) % vs.length = i % vs.length := by rw [h, hmod]
      have hdvd : vs.length ∣ (i + 2) - i :=
        (Nat.modEq_iff_dvd' (by omega)).mp heq.symm
      have : vs.length ≤ 2 := Nat.le_of_dvd (by omega) (by simpa using hdvd)
      omega
    have hne2 : (i + 2) % vs.length ≠ (i + 1) % vs.length := by
      intro h
      have hdvd : vs.length ∣ (i + 2) - (i + 1) :=
        (Nat.modEq_iff_dvd' (by omega)).mp h.symm
      have : vs.length ≤ 1 := Nat.le_of_dvd (by omega) (by simpa using hdvd)
      omega
    exact hconv i hi ((i + 2) % vs.length) (Nat.mod_lt _ hnpos) hne1 hne2

theorem exists_vertex_y_le_centroid (vs : List (ℚ × ℚ)) (hn : 3 ≤ vs.length) :
    ∃ i < vs.length, (vtx vs i).2 ≤ (vertexCentroid vs).2 := by
  by_contra hc
  push_neg at hc
  have hnpos : 0 < vs.length := by omega
  have hnq : (vs.length : ℚ) ≠ 0 := Nat.cast_ne_zero.mpr (by omega)
  have hlt : ∑ j ∈ Finset.range vs.length, (vertexCentroid vs).2
      < ∑ j ∈ Finset.range vs.length, (vtx vs j).2 :=
    Finset.sum_lt_sum_of_nonempty (Finset.nonempty_range_iff.mpr (by omega))
      (fun j hj => hc j (Finset.mem_range.mp hj))
  rw [Finset.sum_const, Finset.card_range, nsmul_eq_mul] at hlt
  have hsy : ∑ j ∈ Finset.range vs.length, (vtx vs j).2
      = (vs.map Prod.snd).sum := (map_sum_eq vs Prod.snd).symm
  rw [hsy] at hlt
  have hcy : (vs.length : ℚ) * (vertexCentroid vs).2 = (vs.map Prod.snd).sum := by
    rw [vertexCentroid]
    field_simp
  rw [hcy] at hlt
  exact lt_irrefl _ hlt

theorem exists_vertex_y_gt_centroid (vs : List (ℚ × ℚ)) (hn : 3 ≤ vs.length)
    (hconv : StrictlyConvex vs) :
    ∃ j < vs.length, (vertexCentroid vs).2 < (vtx vs j).2 := by
  by_contra hc
  push_neg at hc
  have hnpos : 0 < vs.length := by omega
  have hnq : (vs.length : ℚ) ≠ 0 := Nat.cast_ne_zero.mpr (by omega)
  have hall : ∀ j < vs.length, (vtx vs j).2 = (vertexCentroid vs).2 := by
    intro j hj
    by_contra hne
    have hjlt : (vtx vs j).2 < (vertexCentroid vs).2 :=
      lt_of_le_of_ne (hc j hj) hne
    have hlt : ∑ k ∈ Finset.range vs.length, (vtx vs k).2
        < ∑ k ∈ Finset.range vs.length, (vertexCentroid vs).2 :=
      Finset.sum_lt_sum (fun k hk => hc k (Finset.mem_range.mp hk))
        ⟨j, Finset.mem_range.mpr hj, hjlt⟩
    rw [Finset.sum_const, Finset.card_range, nsmul_eq_mul] at hlt
    have hsy : ∑ k ∈ Finset.range vs.length, (vtx vs k).2
        = (vs.map Prod.snd).sum := (map_sum_eq vs Prod.snd).symm
    rw [hsy] at hlt
    have hcy : (vs.length : ℚ) * (vertexCentroid vs).2 = (vs.map Prod.snd).sum := by
      rw [vertexCentroid]
      field_simp
    rw [hcy] at hlt
    exact lt_irrefl _ hlt
  have h01 : (0 + 1) % vs.length = 1 := by
    rw [Nat.mod_eq_of_lt (by omega)]
  have hcv := hconv 0 (by omega) 2 (by omega) (by omega) (by rw [h01]; omega)
  rw [h01, crs] at hcv
  rw [hall 0 (by omega), hall 1 (by omega), hall 2 (by omega)] at hcv
  have hz : ((vtx vs 1).1 - (vtx vs 0).1) * ((vertexCentroid vs).2
      - (vertexCentroid vs).2) - ((vertexCentroid vs).2 - (vertexCentroid vs).2)
      * ((vtx vs 2).1 - (vtx vs 0).1) = 0 := by ring
  rw [hz] at hcv
  exact lt_irrefl _ hcv

theorem up_lt (vs : List (ℚ × ℚ)) (hconv : StrictlyConvex vs) (py : ℚ)
    (i j : ℕ) (hi : i < vs.length) (hj : j < vs.length) (hij : i ≠ j)
    (h1 : (vtx vs i).2 ≤ py) (h2 : py < (vtx vs ((i + 1) % vs.length)).2)
    (h1' : (vtx vs j).2 ≤ py) (h2' : py < (vtx vs ((j + 1) % vs.length)).2) :
    intersectX (vtx vs i) (vtx vs ((i + 1) % vs.length)) py
      < intersectX (vtx vs j) (vtx vs ((j + 1) % vs.length)) py := by
  have hnpos : 0 < vs.length := by omega
  have hne1 : i ≠ (j + 1) % vs.length := by
    intro h
    rw [← h] at h2'
    exact absurd h1 (not_le.mpr h2')
  have hne2 : (i + 1) % vs.length ≠ j := by
    intro h
    rw [h] at h2
    exact absurd h1' (not_le.mpr h2)
  have hne3 : (i + 1) % vs.length ≠ (j + 1) % vs.length := by
    intro h
    exact hij (succ_mod_inj vs.length i j hi hj h)
  have hcv1 : 0 < crs (vtx vs j) (vtx vs ((j + 1) % vs.length)) (vtx vs i) :=
    hconv j hj i hi hij hne1
  have hcv2 : 0 < crs (vtx vs j) (vtx vs ((j + 1) % vs.length))
      (vtx vs ((i + 1) % vs.length)) :=
    hconv j hj ((i + 1) % vs.length) (Nat.mod_lt _ hnpos) hne2 hne3
  have hdi : (vtx vs i).2 < (vtx vs ((i + 1) % vs.length)).2 :=
    lt_of_le_of_lt h1 h2
  have hd : (0 : ℚ) < (vtx vs ((i + 1) % vs.length)).2 - (vtx vs i).2 := by
    linarith
  have hdne : (vtx vs ((i + 1) % vs.length)).2 - (vtx vs i).2 ≠ 0 := ne_of_gt hd
  set a := vtx vs i with ha
  set b := vtx vs ((i + 1) % vs.length) with hb
  set t : ℚ := (py - a.2) / (b.2 - a.2) with htdef
  have ht0 : 0 ≤ t := div_nonneg (by linarith) (le_of_lt hd)
  have ht1 : t < 1 := (div_lt_one hd).mpr (by linarith)
  have hp2 : a.2 + t * (b.2 - a.2) = py := by
    rw [htdef, div_mul_cancel₀ _ hdne]
    ring
  have hp1 : a.1 + t * (b.1 - a.1) = intersectX a b py := by
    rw [intersectX, htdef, div_mul_eq_mul_div]
  have haff := crs_affine (vtx vs j) (vtx vs ((j + 1) % vs.length)) a b t
  rw [hp1, hp2] at haff
  have hcp : 0 < crs (vtx vs j) (vtx vs ((j + 1) % vs.length))
      (intersectX a b py, py) := by
    rw [haff]
    nlinarith [mul_pos (by linarith : (0:ℚ) < 1 - t) hcv1,
      mul_nonneg ht0 (le_of_lt hcv2)]
  have hjd : (vtx vs j).2 < (vtx vs ((j + 1) % vs.length)).2 :=
    lt_of_le_of_lt h1' h2'
  exact (crs_pos_iff_up (vtx vs j) (vtx vs ((j + 1) % vs.length))
    (intersectX a b py) py hjd).mp hcp

theorem up_unique (vs : List (ℚ × ℚ)) (hconv : StrictlyConvex vs) (py : ℚ)
    (i j : ℕ) (hi : i < vs.length) (hj : j < vs.length)
    (h1 : (vtx vs i).2 ≤ py) (h2 : py < (vtx vs ((i + 1) % vs.length)).2)
    (h1' : (vtx vs j).2 ≤ py) (h2' : py < (vtx vs ((j + 1) % vs.length)).2) :
    i = j := by
  by_contra hij
  have hlt1 := up_lt vs hconv py i j hi hj hij h1 h2 h1' h2'
  have hlt2 := up_lt vs hconv py j i hj hi (Ne.symm hij) h1' h2' h1 h2
  exact lt_irrefl _ (lt_trans hlt1 hlt2)

theorem intersectX_le_max (a b : ℚ × ℚ) (py : ℚ) (hne : a.2 ≠ b.2)
    (h1 : min a.2 b.2 ≤ py) (h2 : py < max a.2 b.2) :
    intersectX a b py ≤ max a.1 b.1 := by
  rcases lt_or_gt_of_ne hne with hy | hy
  · rw [min_eq_left hy.le] at h1
    rw [max_eq_right hy.le] at h2
    have hd : (0 : ℚ) < b.2 - a.2 := by linarith
    have hdne : b.2 - a.2 ≠ 0 := ne_of_gt hd
    rw [intersectX, show a.1 + (py - a.2) * (b.1 - a.1) / (b.2 - a.2)
        = ((py - a.2) * (b.1 - a.1) + a.1 * (b.2 - a.2)) / (b.2 - a.2) by
      field_simp
      ring]
    rw [div_le_iff₀ hd]
    rcases le_total a.1 b.1 with hx | hx
    · rw [max_eq_right hx]
      nlinarith [mul_le_mul_of_nonneg_right
        (show py - a.2 ≤ b.2 - a.2 by linarith)
        (show (0 : ℚ) ≤ b.1 - a.1 by linarith)]
    · rw [max_eq_left hx]
      nlinarith [mul_nonneg (show (0 : ℚ) ≤ py - a.2 by linarith)
        (show (0 : ℚ) ≤ a.1 - b.1 by linarith)]
  · rw [min_eq_right hy.le] at h1
    rw [max_eq_left hy.le] at h2
    have hd : b.2 - a.2 < (0 : ℚ) := by linarith
    have hdne : b.2 - a.2 ≠ 0 := ne_of_lt hd
    rw [intersectX, show a.1 + (py - a.2) * (b.1 - a.1) / (b.2 - a.2)
        = ((py - a.2) * (b.1 - a.1) + a.1 * (b.2 - a.2)) / (b.2 - a.2) by
      field_simp
      ring]
    rw [div_le_iff_of_neg hd]
    rcases le_total a.1 b.1 with hx | hx
    · rw [max_eq_right hx]
      nlinarith [mul_le_mul_of_nonneg_left
        (show b.2 - a.2 ≤ py - a.2 by linarith)
        (show (0 : ℚ) ≤ b.1 - a.1 by linarith)]
    · rw [max_eq_left hx]
      nlinarith [mul_nonneg (show (0 : ℚ) ≤ a.2 - py by linarith)
        (show (0 : ℚ) ≤ a.1 - b.1 by linarith)]

theorem min_le_intersectX (a b : ℚ × ℚ) (py : ℚ) (hne : a.2 ≠ b.2)
    (h1 : min a.2 b.2 ≤ py) (h2 : py < max a.2 b.2) :
    min a.1 b.1 ≤ intersectX a b py := by
  rcases lt_or_gt_of_ne hne with hy | hy
  · rw [min_eq_left hy.le] at h1
    rw [max_eq_right hy.le] at h2
    have hd : (0 : ℚ) < b.2 - a.2 := by linarith
    have hdne : b.2 - a.2 ≠ 0 := ne_of_gt hd
    rw [intersectX, show a.1 + (py - a.2) * (b.1 - a.1) / (b.2 - a.2)
        = ((py - a.2) * (b.1 - a.1) + a.1 * (b.2 - a.2)) / (b.2 - a.2) by
      field_simp
      ring]
    rw [le_div_iff₀ hd]
    rcases le_total a.1 b.1 with hx | hx
    · rw [min_eq_left hx]
      nlinarith [mul_nonneg (show (0 : ℚ) ≤ py - a.2 by linarith)
        (show (0 : ℚ) ≤ b.1 - a.1 by linarith)]
    · rw [min_eq_right hx]
      nlinarith [mul_le_mul_of_nonneg_right
        (show py - a.2 ≤ b.2 - a.2 by linarith)
        (show (0 : ℚ) ≤ a.1 - b.1 by linarith)]
  · rw [min_eq_right hy.le] at h1
    rw [max_eq_left hy.le] at h2
    have hd : b.2 - a.2 < (0 : ℚ) := by linarith
    have hdne : b.2 - a.2 ≠ 0 := ne_of_lt hd
    rw [intersectX, show a.1 + (py - a.2) * (b.1 - a.1) / (b.2 - a.2)
        = ((py - a.2) * (b.1 - a.1) + a.1 * (b.2 - a.2)) / (b.2 - a.2) by
      field_simp
      ring]
    rw [le_div_iff_of_neg hd]
    rcases le_total a.1 b.1 with hx | hx
    · rw [min_eq_left hx]
      nlinarith [mul_le_mul_of_nonneg_left
        (show b.2 - a.2 ≤ py - a.2 by linarith)
        (show (0 : ℚ) ≤ b.1 - a.1 by linarith)]
    · rw [min_eq_right hx]
      nlinarith [mul_nonneg (show (0 : ℚ) ≤ a.2 - py by linarith)
        (show (0 : ℚ) ≤ a.1 - b.1 by linarith)]

theorem ray_left_eq (a b : ℚ × ℚ) (px py : ℚ)
    (hx1 : px < a.1) (hx2 : px < b.1) :
    rayIntersectsSegment px py a.1 a.2 b.1 b.2
      = decide (¬ (decide (a.2 ≤ py) = decide (b.2 ≤ py))) := by
  by_cases hy : a.2 = b.2
  · rw [rayIntersectsSegment, if_pos hy, hy]
    simp
  · rw [rayIntersectsSegment, if_neg hy]
    by_cases hin : py < min a.2 b.2 ∨ py ≥ max a.2 b.2
    · rw [if_pos hin]
      rcases hin with h | h
      · have ha : ¬ (a.2 ≤ py) := not_le.mpr (lt_of_lt_of_le h (min_le_left _ _))
        have hb : ¬ (b.2 ≤ py) := not_le.mpr (lt_of_lt_of_le h (min_le_right _ _))
        simp [ha, hb]
      · have ha : a.2 ≤ py := le_trans (le_max_left _ _) h
        have hb : b.2 ≤ py := le_trans (le_max_right _ _) h
        simp [ha, hb]
    · rw [if_neg hin]
      push_neg at hin
      have hXge := min_le_intersectX a b py hy hin.1 hin.2
      have hgt : px < a.1 + (py - a.2) * (b.1 - a.1) / (b.2 - a.2) :=
        lt_of_lt_of_le (lt_min hx1 hx2) hXge
      rw [decide_eq_true hgt]
      rcases lt_or_gt_of_ne hy with hlt | hlt
      · rw [min_eq_left hlt.le] at hin
        rw [max_eq_right hlt.le] at hin
        have ha : a.2 ≤ py := hin.1
        have hb : ¬ (b.2 ≤ py) := not_le.mpr hin.2
        simp [ha, hb]
      · rw [min_eq_right hlt.le] at hin
        rw [max_eq_left hlt.le] at hin
        have ha : ¬ (a.2 ≤ py) := not_le.mpr hin.2
        have hb : b.2 ≤ py := hin.1
        simp [ha, hb]

theorem vtx_mem (vs : List (ℚ × ℚ)) (i : ℕ) (hi : i < vs.length) : vtx vs i ∈ vs := by
  rw [vtx, List.getD_eq_getElem _ _ hi]
  exact List.getElem_mem hi

theorem isPointInPolygon_eq (x y : ℚ) (z : Zone)
    (h : ¬(z.points.length < 3 ∨ z.isComplete = false)) :
    isPointInPolygon x y z
      = decide ((List.range z.points.length).countP
        (fun i => rayIntersectsSegment x y
          (vtx z.points i).1 (vtx z.points i).2
          (vtx z.points ((i + 1) % z.points.length)).1
          (vtx z.points ((i + 1) % z.points.length)).2) % 2 = 1) := by
  rw [isPointInPolygon, if_neg h]
  rfl

theorem countP_congr_bool (l : List ℕ) (p q : ℕ → Bool)
    (h : ∀ x ∈ l, p x = q x) : l.countP p = l.countP q :=
  List.countP_congr (fun x hx => by rw [h x hx])

theorem countP_neq_even (n : ℕ) (hn : 0 < n) (f : ℕ → Bool) :
    (List.range n).countP (fun i => decide (¬(f i = f ((i + 1) % n)))) % 2 = 0 := by
  rw [countP_range_eq_card]
  have hdisj : Disjoint
      ((Finset.range n).filter (fun i => f i = true ∧ f ((i + 1) % n) = false))
      ((Finset.range n).filter (fun i => f i = false ∧ f ((i + 1) % n) = true)) := by
    rw [Finset.disjoint_left]
    intro a ha hb
    have h1 := (Finset.mem_filter.mp ha).2.1
    have h2 := (Finset.mem_filter.mp hb).2.1
    rw [h1] at h2
    exact Bool.noConfusion h2
  have hsplit : (Finset.range n).filter
      (fun i => decide (¬(f i = f ((i + 1) % n))) = true)
      = ((Finset.range n).filter (fun i => f i = true ∧ f ((i + 1) % n) = false))
        ∪ ((Finset.range n).filter (fun i => f i = false ∧ f ((i + 1) % n) = true)) := by
    rw [← Finset.filter_or]
    apply Finset.filter_congr
    intro i _
    cases h1 : f i <;> cases h2 : f ((i + 1) % n) <;> simp [h1, h2]
  rw [hsplit, Finset.card_union_of_disjoint hdisj, card_up_eq_card_down n hn f]
  omega

theorem isPointInPolygon_centroid (z : Zone) (hcomp : z.isComplete = true)
    (hn : 3 ≤ z.points.length) (hconv : StrictlyConvex z.points) :
    isPointInPolygon (vertexCentroid z.points).1 (vertexCentroid z.points).2 z
      = true := by
  have hg : ¬(z.points.length < 3 ∨ z.isComplete = false) := by
    push_neg
    exact ⟨by omega, by simp [hcomp]⟩
  rw [isPointInPolygon_eq _ _ _ hg]
  have hpt : ∀ i ∈ List.range z.points.length,
      rayIntersectsSegment (vertexCentroid z.points).1 (vertexCentroid z.points).2
        (vtx z.points i).1 (vtx z.points i).2
        (vtx z.points ((i + 1) % z.points.length)).1
        (vtx z.points ((i + 1) % z.points.length)).2
      = decide ((vtx z.points i).2 ≤ (vertexCentroid z.points).2
          ∧ (vertexCentroid z.points).2
            < (vtx z.points ((i + 1) % z.points.length)).2) := by
    intro i hi
    have hi' : i < z.points.length := List.mem_range.mp hi
    have hcl := centroid_left z.points hn hconv i hi'
    have hcl' : 0 < crs (vtx z.points i)
        (vtx z.points ((i + 1) % z.points.length))
        ((vertexCentroid z.points).1, (vertexCentroid z.points).2) := by
      rw [Prod.mk.eta]
      exact hcl
    exact rayIntersects_eq_up _ _ _ _ hcl'
  rw [countP_congr_bool _ _ _ hpt, countP_range_eq_card]
  obtain ⟨i0, hi0, hle⟩ := exists_vertex_y_le_centroid z.points hn
  obtain ⟨j0, hj0, hgt⟩ := exists_vertex_y_gt_centroid z.points hn hconv
  obtain ⟨iw, hiw, hf1, hf2⟩ := cyclic_exists_transition z.points.length
    (fun k => decide ((vtx z.points k).2 ≤ (vertexCentroid z.points).2)) i0 j0
    hi0 hj0 (decide_eq_true hle) (decide_eq_false (not_le.mpr hgt))
  have hw1 : (vtx z.points iw).2 ≤ (vertexCentroid z.points).2 :=
    of_decide_eq_true hf1
  have hw2 : (vertexCentroid z.points).2
      < (vtx z.points ((iw + 1) % z.points.length)).2 :=
    not_le.mp (of_decide_eq_false hf2)
  have hcard := card_filter_bool_eq_one z.points.length
    (fun i => decide ((vtx z.points i).2 ≤ (vertexCentroid z.points).2
      ∧ (vertexCentroid z.points).2
        < (vtx z.points ((i + 1) % z.points.length)).2))
    iw hiw (decide_eq_true ⟨hw1, hw2⟩)
    (fun i hi hq => up_unique z.points hconv (vertexCentroid z.points).2 i iw hi hiw
      (of_decide_eq_true hq).1 (of_decide_eq_true hq).2 hw1 hw2)
  rw [hcard]
  rfl

theorem isPointInPolygon_far_outside (z : Zone) (hcomp : z.isComplete = true)
    (hn : 3 ≤ z.points.length) (qx qy : ℚ)
    (hout : (∀ v ∈ z.points, qy < v.2) ∨ (∀ v ∈ z.points, v.2 < qy)
      ∨ (∀ v ∈ z.points, v.1 < qx) ∨ (∀ v ∈ z.points, qx < v.1)) :
    isPointInPolygon qx qy z = false := by
  have hg : ¬(z.points.length < 3 ∨ z.isComplete = false) := by
    push_neg
    exact ⟨by omega, by simp [hcomp]⟩
  rw [isPointInPolygon_eq _ _ _ hg]
  have hnpos : 0 < z.points.length := by omega
  rcases hout with h | h | h | h
  · have hzero : (List.range z.points.length).countP
        (fun i => rayIntersectsSegment qx qy
          (vtx z.points i).1 (vtx z.points i).2
          (vtx z.points ((i + 1) % z.points.length)).1
          (vtx z.points ((i + 1) % z.points.length)).2) = 0 := by
      rw [List.countP_eq_zero]
      intro i hi
      have hi' : i < z.points.length := List.mem_range.mp hi
      have h1 := h _ (vtx_mem z.points i hi')
      have h2 := h _ (vtx_mem z.points ((i + 1) % z.points.length)
        (Nat.mod_lt _ hnpos))
      simp only [rayIntersectsSegment]
      by_cases hy : (vtx z.points i).2 = (vtx z.points ((i + 1) % z.points.length)).2
      · rw [if_pos hy]
        simp
      · rw [if_neg hy, if_pos (Or.inl (lt_min h1 h2))]
        simp
    rw [hzero]
    rfl
  · have hzero : (List.range z.points.length).countP
        (fun i => rayIntersectsSegment qx qy
          (vtx z.points i).1 (vtx z.points i).2
          (vtx z.points ((i + 1) % z.points.length)).1
          (vtx z.points ((i + 1) % z.points.length)).2) = 0 := by
      rw [List.countP_eq_zero]
      intro i hi
      have hi' : i < z.points.length := List.mem_range.mp hi
      have h1 := h _ (vtx_mem z.points i hi')
      have h2 := h _ (vtx_mem z.points ((i + 1) % z.points.length)
        (Nat.mod_lt _ hnpos))
      simp only [rayIntersectsSegment]
      by_cases hy : (vtx z.points i).2 = (vtx z.points ((i + 1) % z.points.length)).2
      · rw [if_pos hy]
        simp
      · rw [if_neg hy, if_pos (Or.inr ((max_lt h1 h2).le))]
        simp
    rw [hzero]
    rfl
  · have hzero : (List.range z.points.length).countP
        (fun i => rayIntersectsSegment qx qy
          (vtx z.points i).1 (vtx z.points i).2
          (vtx z.points ((i + 1) % z.points.length)).1
          (vtx z.points ((i + 1) % z.points.length)).2) = 0 := by
      rw [List.countP_eq_zero]
      intro i hi
      have hi' : i < z.points.length := List.mem_range.mp hi
      have h1 := h _ (vtx_mem z.points i hi')
      have h2 := h _ (vtx_mem z.points ((i + 1) % z.points.length)
        (Nat.mod_lt _ hnpos))
      simp only [rayIntersectsSegment]
      by_cases hy : (vtx z.points i).2 = (vtx z.points ((i + 1) % z.points.length)).2
      · rw [if_pos hy]
        simp
      · rw [if_neg hy]
        by_cases hin : qy < min (vtx z.points i).2
              (vtx z.points ((i + 1) % z.points.length)).2
            ∨ qy ≥ max (vtx z.points i).2
              (vtx z.points ((i + 1) % z.points.length)).2
        · rw [if_pos hin]
          simp
        · rw [if_neg hin]
          push_neg at hin
          have hle := intersectX_le_max (vtx z.points i)
            (vtx z.points ((i + 1) % z.points.length)) qy hy hin.1 hin.2
          have hlt : intersectX (vtx z.points i)
              (vtx z.points ((i + 1) % z.points.length)) qy < qx :=
            lt_of_le_of_lt hle (max_lt h1 h2)
          simp only [gt_iff_lt]
          rw [show (vtx z.points i).1
              + (qy - (vtx z.points i).2)
                * ((vtx z.points ((i + 1) % z.points.length)).1 - (vtx z.points i).1)
                / ((vtx z.points ((i + 1) % z.points.length)).2 - (vtx z.points i).2)
              = intersectX (vtx z.points i)
                (vtx z.points ((i + 1) % z.points.length)) qy from rfl]
          rw [decide_eq_false (not_lt.mpr hlt.le)]
          simp
    rw [hzero]
    rfl
  · have hpt : ∀ i ∈ List.range z.points.length,
        rayIntersectsSegment qx qy
          (vtx z.points i).1 (vtx z.points i).2
          (vtx z.points ((i + 1) % z.points.length)).1
          (vtx z.points ((i + 1) % z.points.length)).2
        = decide (¬(decide ((vtx z.points i).2 ≤ qy)
            = decide ((vtx z.points ((i + 1) % z.points.length)).2 ≤ qy))) := by
      intro i hi
      have hi' : i < z.points.length := List.mem_range.mp hi
      exact ray_left_eq _ _ _ _ (h _ (vtx_mem z.points i hi'))
        (h _ (vtx_mem z.points ((i + 1) % z.points.length) (Nat.mod_lt _ hnpos)))
    rw [countP_congr_bool _ _ _ hpt]
    have heven := countP_neq_even z.points.length hnpos
      (fun k => decide ((vtx z.points k).2 ≤ qy))
    rw [decide_eq_false]
    omega

/-- C9: for a convex polygon zone (complete, at least three vertices, every
vertex strictly left of every directed edge), `ZoneManager::isPointInPolygon`
reports the polygon's vertex centroid as inside, and reports any point lying
strictly outside the polygon's bounding region — below, above, right or left
of every vertex — as outside. -/
theorem C9_theorem (z : Zone) (hcomp : z.isComplete = true)
    (hn : 3 ≤ z.points.length) (hconv : StrictlyConvex z.points) :
    isPointInPolygon (vertexCentroid z.points).1 (vertexCentroid z.points).2 z
        = true
    ∧ ∀ qx qy : ℚ,
      ((∀ v ∈ z.points, qy < v.2) ∨ (∀ v ∈ z.points, v.2 < qy)
        ∨ (∀ v ∈ z.points, v.1 < qx) ∨ (∀ v ∈ z.points, qx < v.1)) →
      isPointInPolygon qx qy z = false :=
  ⟨isPointInPolygon_centroid z hcomp hn hconv,
   fun qx qy hout => isPointInPolygon_far_outside z hcomp hn qx qy hout⟩

/-- C9 witness: for the concrete triangle zone `zoneC9`, the vertex centroid
(4/3, 4/3) tests inside and the far point (100, 100) tests outside. -/
theorem C9_witness :
    (zoneC9.isComplete = true ∧ 3 ≤ zoneC9.points.length
      ∧ StrictlyConvex zoneC9.points)
    ∧ isPointInPolygon (vertexCentroid zoneC9.points).1
        (vertexCentroid zoneC9.points).2 zoneC9 = true
    ∧ isPointInPolygon 100 100 zoneC9 = false := by
  have hcomp : zoneC9.isComplete = true := rfl
  have hn : 3 ≤ zoneC9.points.length := le_refl 3
  have hconv : StrictlyConvex zoneC9.points := by
    have hv0 : vtx zoneC9.points 0 = (0, 0) := rfl
    have hv1 : vtx zoneC9.points 1 = (4, 0) := rfl
    have hv2 : vtx zoneC9.points 2 = (0, 4) := rfl
    intro i hi j hj hne1 hne2
    have hlen : zoneC9.points.length = 3 := rfl
    rw [hlen] at hi hj hne2 ⊢
    interval_cases i <;> interval_cases j
    · exact absurd rfl hne1
    · exact absurd rfl hne2
    · show 0 < crs (vtx zoneC9.points 0) (vtx zoneC9.points 1) (vtx zoneC9.points 2)
      rw [hv0, hv1, hv2, crs]
      norm_num
    · show 0 < crs (vtx zoneC9.points 1) (vtx zoneC9.points 2) (vtx zoneC9.points 0)
      rw [hv0, hv1, hv2, crs]
      norm_num
    · exact absurd rfl hne1
    · exact absurd rfl hne2
    · exact absurd rfl hne2
    · show 0 < crs (vtx zoneC9.points 2) (vtx zoneC9.points 0) (vtx zoneC9.points 1)
      rw [hv0, hv1, hv2, crs]
      norm_num
    · exact absurd rfl hne1
  have hmain := C9_theorem zoneC9 hcomp hn hconv
  refine ⟨⟨hcomp, hn, hconv⟩, hmain.1, hmain.2 100 100 (Or.inr (Or.inl ?_))⟩
  intro v hv
  have hv' : v ∈ [((0 : ℚ), (0 : ℚ)), (4, 0), (0, 4)] := hv
  fin_cases hv' <;> norm_num

end PetCollar
